import Mathlib

/-!
Verification of the nfx-datetime calendar/ISO-8601 core.

The definitions below are a shallow embedding of the two translation units
src/DateTime.cpp and src/DateTimeOffset.cpp.  Machine integers (int64_t,
int32_t) are embedded as Int: every arithmetic value manipulated by the
embedded code paths stays far below 2^31 resp. 2^63, so no wrap-around can
occur and plain Int arithmetic is faithful.  C++ integer division truncates
toward zero; every division and remainder in the embedded code paths is
applied to a non-negative dividend and positive divisor (ticks within the
valid DateTime range, validated field values), where truncated division
agrees with Lean's Int division, except for DateTimeOffset.totalOffsetMinutes
whose dividend may be negative and which therefore uses Int.tdiv explicitly.
Strings are embedded as List Char.
-/

namespace NfxDateTime

/-- Constants from the (not included) header Internal.h; their values are
fixed by the spec: ticks are 100 ns units, the epoch is 0001-01-01, the
valid range covers the years 1..9999, and the Gregorian cycle lengths are
146097/36524/1461/365 days. -/
def TICKS_PER_MILLISECOND : Int := 10000

def TICKS_PER_SECOND : Int := 10000000

def TICKS_PER_MINUTE : Int := 600000000

def TICKS_PER_HOUR : Int := 36000000000

def TICKS_PER_DAY : Int := 864000000000

def TICKS_PER_MICROSECOND : Int := 10

def DAYS_PER_YEAR : Int := 365

def DAYS_PER_4_YEARS : Int := 1461

def DAYS_PER_100_YEARS : Int := 36524

def DAYS_PER_400_YEARS : Int := 146097

def MIN_YEAR : Int := 1

def MAX_YEAR : Int := 9999

def HOURS_PER_DAY : Int := 24

def MINUTES_PER_HOUR : Int := 60

def SECONDS_PER_MINUTE : Int := 60

def MILLISECONDS_PER_SECOND : Int := 1000

/-- Minimum representable tick value (0001-01-01T00:00:00). -/
def MIN_DATETIME_TICKS : Int := 0

/-- Maximum representable tick value (9999-12-31T23:59:59.9999999):
3652059 days of the years 1..9999, in ticks, minus one tick. -/
def MAX_DATETIME_TICKS : Int := 3652059 * 864000000000 - 1

/-- Modelled from the spec: DateTime::isLeapYear lives in the missing header
nfx/datetime/DateTime.h; spec section 3 fixes the rule (divisible by 4,
except centuries unless divisible by 400). -/
def isLeapYear (y : Int) : Bool :=
  y % 4 == 0 && (y % 100 != 0 || y % 400 == 0)

/-- Modelled from the spec: DateTime::daysInMonth lives in the missing header
nfx/datetime/DateTime.h; spec section 3 fixes day-in-month bounds under the
Gregorian leap rule. -/
def daysInMonth (y m : Int) : Int :=
  if m = 2 then (if isLeapYear y then 29 else 28)
  else if m = 4 ∨ m = 6 ∨ m = 9 ∨ m = 11 then 30
  else 31

/-- Number of days contributed by the whole years before year `y`
(the 400/100/4/1-year cycle part of internal::dateToTicks,
DateTime.cpp lines 152-170). -/
def daysBeforeYear (y : Int) : Int :=
  let z := y - 1
  (z / 400) * DAYS_PER_400_YEARS + (z % 400 / 100) * DAYS_PER_100_YEARS +
    (z % 400 % 100 / 4) * DAYS_PER_4_YEARS + (z % 400 % 100 % 4) * DAYS_PER_YEAR

/-- The month loop of internal::dateToTicks (DateTime.cpp lines 173-176):
days of the complete months 1..n of year `y`. -/
def daysBeforeMonthAux (y : Int) : Nat → Int
  | 0 => 0
  | n + 1 => daysBeforeMonthAux y n + daysInMonth y (n + 1)

/-- Days of the complete months before `month` in year `y`. -/
def daysBeforeMonth (y month : Int) : Int :=
  daysBeforeMonthAux y (month - 1).toNat

/-- internal::dateToTicks (DateTime.cpp lines 149-182). -/
def dateToTicks (year month day : Int) : Int :=
  (daysBeforeYear year + daysBeforeMonth year month + (day - 1)) * TICKS_PER_DAY

/-- internal::timeToTicks (DateTime.cpp lines 185-192). -/
def timeToTicks (hour minute second millisecond : Int) : Int :=
  hour * TICKS_PER_HOUR + minute * TICKS_PER_MINUTE + second * TICKS_PER_SECOND +
    millisecond * TICKS_PER_MILLISECOND

/-- The 400/100/4/1-year extraction of internal::dateComponentsFromTicks
(DateTime.cpp lines 79-106): from a day count, the year and the remaining
days within that year.  The 100-year and 1-year quotients are clamped to 3
to attribute the leap day of the 400- and 4-year boundaries. -/
def yearFromDays (totalDays : Int) : Int × Int :=
  let num400Years := totalDays / DAYS_PER_400_YEARS
  let r1 := totalDays % DAYS_PER_400_YEARS
  let num100Years := if r1 / DAYS_PER_100_YEARS > 3 then 3 else r1 / DAYS_PER_100_YEARS
  let r2 := r1 - num100Years * DAYS_PER_100_YEARS
  let num4Years := r2 / DAYS_PER_4_YEARS
  let r3 := r2 % DAYS_PER_4_YEARS
  let numYears := if r3 / DAYS_PER_YEAR > 3 then 3 else r3 / DAYS_PER_YEAR
  let r4 := r3 - numYears * DAYS_PER_YEAR
  (1 + num400Years * 400 + num100Years * 100 + num4Years * 4 + numYears, r4)

/-- The month scan of internal::dateComponentsFromTicks (DateTime.cpp lines
109-120).  The C++ while loop runs for month = 1..12 and exits as soon as
the remaining days fit in the current month; the fuel argument counts the
loop iterations still allowed by the condition month <= 12, so running out
of fuel is exactly the C++ loop exiting with month = 13. -/
def monthLoop (year : Int) : Nat → Int → Int → Int × Int
  | 0, month, td => (month, td)
  | fuel + 1, month, td =>
    if td < daysInMonth year month then (month, td)
    else monthLoop year fuel (month + 1) (td - daysInMonth year month)

/-- internal::dateComponentsFromTicks (DateTime.cpp lines 75-124). -/
def dateComponentsFromTicks (ticks : Int) : Int × Int × Int :=
  let totalDays := ticks / TICKS_PER_DAY
  let yr := yearFromDays totalDays
  let mr := monthLoop yr.1 12 1 yr.2
  (yr.1, mr.1, mr.2 + 1)

/-- internal::timeComponentsFromTicks (DateTime.cpp lines 127-146). -/
def timeComponentsFromTicks (ticks : Int) : Int × Int × Int × Int :=
  let timeTicks := ticks % TICKS_PER_DAY
  let hour := timeTicks / TICKS_PER_HOUR
  let t1 := timeTicks % TICKS_PER_HOUR
  let minute := t1 / TICKS_PER_MINUTE
  let t2 := t1 % TICKS_PER_MINUTE
  let second := t2 / TICKS_PER_SECOND
  let t3 := t2 % TICKS_PER_SECOND
  (hour, minute, second, t3 / TICKS_PER_MILLISECOND)

/-- internal::isValidDate (DateTime.cpp lines 195-211). -/
def isValidDate (year month day : Int) : Bool :=
  if year < MIN_YEAR ∨ year > MAX_YEAR then false
  else if month < 1 ∨ month > 12 then false
  else if day < 1 ∨ day > daysInMonth year month then false
  else true

/-- internal::isValidTime (DateTime.cpp lines 214-221). -/
def isValidTime (hour minute second millisecond : Int) : Bool :=
  0 ≤ hour && hour ≤ HOURS_PER_DAY - 1 && 0 ≤ minute && minute ≤ MINUTES_PER_HOUR - 1 &&
    0 ≤ second && second ≤ SECONDS_PER_MINUTE - 1 && 0 ≤ millisecond &&
    millisecond ≤ MILLISECONDS_PER_SECOND - 1

/-! ### Calendar codec lemmas -/

/-- Spec-level abbreviation: length of year `y` in days. -/
def daysInYear (y : Int) : Int := if isLeapYear y then 366 else 365

/-! ### DateTime and TimeSpan value types -/

/-- Modelled from the spec: the span type stores a signed 64-bit tick count
(spec sections 2 and 3); its fromMinutes factory scales minutes to ticks. -/
structure TimeSpan where
  ticks : Int
deriving DecidableEq

/-- Modelled from the spec: TimeSpan::fromMinutes (minute-granularity offsets
are stored as tick counts). -/
def TimeSpan.fromMinutes (minutes : Int) : TimeSpan :=
  ⟨minutes * TICKS_PER_MINUTE⟩

/-- The DateTime value type: a single signed 64-bit tick count
(header nfx/datetime/DateTime.h, field m_ticks). -/
structure DateTime where
  m_ticks : Int
deriving DecidableEq

/-- Modelled from the spec: the tick accessor of the header. -/
def DateTime.ticks (dt : DateTime) : Int := dt.m_ticks

/-- Modelled from the spec: the tick constructor of the header stores the
given tick count unchanged. -/
def DateTime.ofTicks (t : Int) : DateTime := ⟨t⟩

/-- DateTime::DateTime(year, month, day) (DateTime.cpp lines 419-427). -/
def DateTime.ofYMD (year month day : Int) : DateTime :=
  if ¬ isValidDate year month day then ⟨MIN_DATETIME_TICKS⟩
  else ⟨dateToTicks year month day⟩

/-- DateTime::DateTime(year, month, day, hour, minute, second)
(DateTime.cpp lines 429-443). -/
def DateTime.ofYMDHMS (year month day hour minute second : Int) : DateTime :=
  if ¬ (isValidDate year month day ∧ isValidTime hour minute second 0) then
    ⟨MIN_DATETIME_TICKS⟩
  else ⟨dateToTicks year month day + timeToTicks hour minute second 0⟩

/-- DateTime::DateTime(year, month, day, hour, minute, second, millisecond)
(DateTime.cpp lines 445-461). -/
def DateTime.ofYMDHMSms (year month day hour minute second millisecond : Int) : DateTime :=
  if ¬ (isValidDate year month day ∧ isValidTime hour minute second millisecond) then
    ⟨MIN_DATETIME_TICKS⟩
  else ⟨dateToTicks year month day + timeToTicks hour minute second millisecond⟩

/-- DateTime::year / month / day (DateTime.cpp lines 467-489). -/
def DateTime.year (dt : DateTime) : Int := (dateComponentsFromTicks dt.m_ticks).1

def DateTime.month (dt : DateTime) : Int := (dateComponentsFromTicks dt.m_ticks).2.1

def DateTime.day (dt : DateTime) : Int := (dateComponentsFromTicks dt.m_ticks).2.2

/-- DateTime::hour / minute / second (DateTime.cpp lines 491-513). -/
def DateTime.hour (dt : DateTime) : Int := (timeComponentsFromTicks dt.m_ticks).1

def DateTime.minute (dt : DateTime) : Int := (timeComponentsFromTicks dt.m_ticks).2.1

def DateTime.second (dt : DateTime) : Int := (timeComponentsFromTicks dt.m_ticks).2.2.1

/-- DateTime::timeOfDay (DateTime.cpp lines 571-576). -/
def DateTime.timeOfDay (dt : DateTime) : TimeSpan := ⟨dt.m_ticks % TICKS_PER_DAY⟩

/-- Modelled from the spec: DateTime operator+(TimeSpan) of the missing
header adds the span ticks to the instant ticks (spec section 4.5,
duration-based arithmetic delegates to span arithmetic on the tick value). -/
def DateTime.addSpan (dt : DateTime) (ts : TimeSpan) : DateTime :=
  ⟨dt.m_ticks + ts.ticks⟩

/-- DateTime::isValid (DateTime.cpp lines 838-841). -/
def DateTime.isValid (dt : DateTime) : Bool :=
  MIN_DATETIME_TICKS ≤ dt.m_ticks && dt.m_ticks ≤ MAX_DATETIME_TICKS

/-! ### Character helpers (DateTime.cpp lines 228-259) -/

/-- isDigit (DateTime.cpp lines 243-246). -/
def isDigitC (c : Char) : Bool := '0' ≤ c && c ≤ '9'

/-- parse2Digits (DateTime.cpp lines 231-234): byte arithmetic on two digit
characters, no validation. -/
def parse2Digits (c1 c2 : Char) : Int :=
  ((c1.toNat : Int) - ('0'.toNat : Int)) * 10 + ((c2.toNat : Int) - ('0'.toNat : Int))

/-- parse4Digits (DateTime.cpp lines 237-240). -/
def parse4Digits (c1 c2 c3 c4 : Char) : Int :=
  ((c1.toNat : Int) - ('0'.toNat : Int)) * 1000 + ((c2.toNat : Int) - ('0'.toNat : Int)) * 100 +
    ((c3.toNat : Int) - ('0'.toNat : Int)) * 10 + ((c4.toNat : Int) - ('0'.toNat : Int))

/-! ### Formatting helpers (DateTime.cpp lines 582-761) -/

/-- appendTwoDigits (DateTime.cpp lines 585-589). -/
def appendTwoDigits (v : Int) : List Char :=
  [Char.ofNat ('0'.toNat + (v / 10).toNat), Char.ofNat ('0'.toNat + (v % 10).toNat)]

/-- appendFourDigits (DateTime.cpp lines 592-598). -/
def appendFourDigits (v : Int) : List Char :=
  [Char.ofNat ('0'.toNat + (v / 1000).toNat), Char.ofNat ('0'.toNat + (v / 100 % 10).toNat),
    Char.ofNat ('0'.toNat + (v / 10 % 10).toNat), Char.ofNat ('0'.toNat + (v % 10).toNat)]

/-- appendIso8601Date (DateTime.cpp lines 601-609). -/
def appendIso8601Date (y m d : Int) : List Char :=
  appendFourDigits y ++ ['-'] ++ appendTwoDigits m ++ ['-'] ++ appendTwoDigits d

/-- appendIso8601Time (DateTime.cpp lines 612-620). -/
def appendIso8601Time (h mi s : Int) : List Char :=
  appendTwoDigits h ++ [':'] ++ appendTwoDigits mi ++ [':'] ++ appendTwoDigits s

/-- appendIso8601DateTime (DateTime.cpp lines 623-634). -/
def appendIso8601DateTime (y m d h mi s : Int) : List Char :=
  appendIso8601Date y m d ++ ['T'] ++ appendIso8601Time h mi s

/-- Fixed-width zero-padded decimal expansion: the combined effect of the
std::to_chars call and the memmove/memset left padding in
appendFractionalSeconds (DateTime.cpp lines 637-656). -/
def padDigits : Nat → Int → List Char
  | 0, _ => []
  | n + 1, v => padDigits n (v / 10) ++ [Char.ofNat ('0'.toNat + (v % 10).toNat)]

/-- appendFractionalSeconds (DateTime.cpp lines 637-656): a dot followed by
the value zero-padded to bufferSize - 1 digits. -/
def appendFractionalSeconds (v : Int) (bufferSize : Nat) : List Char :=
  '.' :: padDigits (bufferSize - 1) v

/-- The trailing-zero trim loop of appendFractionalSecondsTrimmed
(DateTime.cpp lines 677-680): drop trailing zero digits but never the first
digit after the dot (the loop keeps fracLen > 2). -/
def trimZeros (ds : List Char) : List Char :=
  let t := (ds.reverse.dropWhile fun c => c == '0').reverse
  if t.isEmpty then ds.take 1 else t

/-- appendFractionalSecondsTrimmed (DateTime.cpp lines 659-688). -/
def appendFractionalSecondsTrimmed (v : Int) : List Char :=
  if v > 0 then '.' :: trimZeros (padDigits 7 v)
  else ['.', '0']

/-- formatIso8601 (DateTime.cpp lines 691-696). -/
def formatIso8601 (y m d h mi s : Int) : List Char :=
  appendIso8601DateTime y m d h mi s ++ ['Z']

/-- formatIso8601Precise (DateTime.cpp lines 699-706). -/
def formatIso8601Precise (y m d h mi s : Int) (ticks : Int) : List Char :=
  appendIso8601DateTime y m d h mi s ++
    appendFractionalSeconds (ticks % TICKS_PER_SECOND) 8 ++ ['Z']

/-- formatIso8601PreciseTrimmed (DateTime.cpp lines 709-716). -/
def formatIso8601PreciseTrimmed (y m d h mi s : Int) (ticks : Int) : List Char :=
  appendIso8601DateTime y m d h mi s ++
    appendFractionalSecondsTrimmed (ticks % TICKS_PER_SECOND) ++ ['Z']

/-- formatIso8601Millis (DateTime.cpp lines 719-727). -/
def formatIso8601Millis (y m d h mi s : Int) (ticks : Int) : List Char :=
  appendIso8601DateTime y m d h mi s ++
    appendFractionalSeconds (ticks % TICKS_PER_SECOND / TICKS_PER_MILLISECOND) 4 ++ ['Z']

/-- formatIso8601Micros (DateTime.cpp lines 730-738). -/
def formatIso8601Micros (y m d h mi s : Int) (ticks : Int) : List Char :=
  appendIso8601DateTime y m d h mi s ++
    appendFractionalSeconds (ticks % TICKS_PER_SECOND / TICKS_PER_MICROSECOND) 7 ++ ['Z']

/-- formatIso8601Extended (DateTime.cpp lines 741-746). -/
def formatIso8601Extended (y m d h mi s : Int) : List Char :=
  appendIso8601DateTime y m d h mi s ++ ['+', '0', '0', ':', '0', '0']

/-- formatIso8601Basic (DateTime.cpp lines 749-760). -/
def formatIso8601Basic (y m d h mi s : Int) : List Char :=
  appendFourDigits y ++ appendTwoDigits m ++ appendTwoDigits d ++ ['T'] ++
    appendTwoDigits h ++ appendTwoDigits mi ++ appendTwoDigits s ++ ['Z']

/-- The Unix epoch in ticks (constants of the missing Internal.h, fixed by
the spec: Unix epoch seconds/milliseconds interop). -/
def UNIX_EPOCH_TICKS : Int := 621355968000000000

/-- Modelled from the spec: DateTime::toEpochSeconds of the missing header
converts ticks since 0001-01-01 to whole seconds since the Unix epoch
(spec section 6); C++ integer division truncates toward zero. -/
def toEpochSecondsOfTicks (t : Int) : Int :=
  (t - UNIX_EPOCH_TICKS).tdiv TICKS_PER_SECOND

/-- Modelled from the spec: DateTime::toEpochMilliseconds of the missing
header (spec section 6). -/
def toEpochMillisecondsOfTicks (t : Int) : Int :=
  (t - UNIX_EPOCH_TICKS).tdiv TICKS_PER_MILLISECOND

/-- Decimal digit expansion of a natural number (the semantics of
std::to_chars / std::to_string on a non-negative integer). -/
def natDigits (n : Nat) : List Char :=
  if h : n < 10 then [Char.ofNat ('0'.toNat + n)]
  else natDigits (n / 10) ++ [Char.ofNat ('0'.toNat + n % 10)]
decreasing_by exact Nat.div_lt_self (by omega) (by omega)

/-- std::to_string / std::to_chars on a signed 64-bit integer. -/
def intToString (v : Int) : List Char :=
  if v < 0 then '-' :: natDigits (-v).toNat else natDigits v.toNat

/-- The Format selector enumeration of the header. -/
inductive Format where
  | Iso8601
  | Iso8601Precise
  | Iso8601PreciseTrimmed
  | Iso8601Millis
  | Iso8601Micros
  | Iso8601Extended
  | Iso8601Basic
  | Iso8601Date
  | Iso8601Time
  | UnixSeconds
  | UnixMilliseconds
deriving DecidableEq

/-- DateTime::toString (DateTime.cpp lines 763-832). -/
def DateTime.toString (dt : DateTime) (fmt : Format) : List Char :=
  let dc := dateComponentsFromTicks dt.m_ticks
  let tc := timeComponentsFromTicks dt.m_ticks
  match fmt with
  | .Iso8601 => formatIso8601 dc.1 dc.2.1 dc.2.2 tc.1 tc.2.1 tc.2.2.1
  | .Iso8601Precise => formatIso8601Precise dc.1 dc.2.1 dc.2.2 tc.1 tc.2.1 tc.2.2.1 dt.m_ticks
  | .Iso8601PreciseTrimmed =>
    formatIso8601PreciseTrimmed dc.1 dc.2.1 dc.2.2 tc.1 tc.2.1 tc.2.2.1 dt.m_ticks
  | .Iso8601Millis => formatIso8601Millis dc.1 dc.2.1 dc.2.2 tc.1 tc.2.1 tc.2.2.1 dt.m_ticks
  | .Iso8601Micros => formatIso8601Micros dc.1 dc.2.1 dc.2.2 tc.1 tc.2.1 tc.2.2.1 dt.m_ticks
  | .Iso8601Extended => formatIso8601Extended dc.1 dc.2.1 dc.2.2 tc.1 tc.2.1 tc.2.2.1
  | .Iso8601Basic => formatIso8601Basic dc.1 dc.2.1 dc.2.2 tc.1 tc.2.1 tc.2.2.1
  | .Iso8601Date => appendIso8601Date dc.1 dc.2.1 dc.2.2
  | .Iso8601Time => appendIso8601Time tc.1 tc.2.1 tc.2.2.1
  | .UnixSeconds => intToString (toEpochSecondsOfTicks dt.m_ticks)
  | .UnixMilliseconds => intToString (toEpochMillisecondsOfTicks dt.m_ticks)

/-! ### Parsing (DateTime.cpp lines 271-408 and 865-1068) -/

/-- The fractional-second scan loop shared by the two parsers (DateTime.cpp
lines 354-362 and 1024-1032): read digits, at most 7, accumulating the
value; returns value, digit count and the unconsumed remainder. -/
def readFraction7 : List Char → Int → Nat → Int × Nat × List Char
  | [], v, n => (v, n, [])
  | c :: cs, v, n =>
    if isDigitC c ∧ n < 7 then readFraction7 cs (v * 10 + ((c.toNat : Int) - 48)) (n + 1)
    else (v, n, c :: cs)

/-- The pad-to-7-digits loop (DateTime.cpp lines 369-374 and 1044-1048):
multiply by 10 until 7 digits. -/
def padFractionTo7 (n : Nat) (v : Int) : Int := v * 10 ^ (7 - n)

/-- Positions 19.. of the fast path (DateTime.cpp lines 339-400): nothing,
a bare Z, or a dot with 1-7 significant fraction digits, excess digits
silently discarded, then an optional Z; anything else declines. -/
def fastAfterSeconds (base : Int) (rest : List Char) : Option Int :=
  match rest with
  | [] => some base
  | ['Z'] => some base
  | '.' :: fs =>
    let fr := readFraction7 fs 0 0
    if fr.2.1 = 0 then none
    else
      match fr.2.2.dropWhile isDigitC with
      | [] => some (base + padFractionTo7 fr.2.1 fr.1)
      | ['Z'] => some (base + padFractionTo7 fr.2.1 fr.1)
      | _ => none
  | _ => none

/-- tryParseFastPath (DateTime.cpp lines 271-408): fixed-layout ISO 8601
parser; the fixed byte positions of the C++ code become list patterns.
Returns the parsed tick count. -/
def tryParseFastPath (s : List Char) : Option Int :=
  match s with
  | c0 :: c1 :: c2 :: c3 :: c4 :: c5 :: c6 :: c7 :: c8 :: c9 :: rest =>
    if c4 = '-' ∧ c7 = '-' ∧ isDigitC c0 ∧ isDigitC c1 ∧ isDigitC c2 ∧ isDigitC c3 ∧
        isDigitC c5 ∧ isDigitC c6 ∧ isDigitC c8 ∧ isDigitC c9 then
      let year := parse4Digits c0 c1 c2 c3
      let month := parse2Digits c5 c6
      let day := parse2Digits c8 c9
      if isValidDate year month day then
        match rest with
        | [] => some (dateToTicks year month day)
        | c10 :: rest2 =>
          if c10 = 'T' then
            match rest2 with
            | h1 :: h2 :: cc1 :: m1 :: m2 :: cc2 :: s1 :: s2 :: rest3 =>
              if cc1 = ':' ∧ cc2 = ':' ∧ isDigitC h1 ∧ isDigitC h2 ∧ isDigitC m1 ∧
                  isDigitC m2 ∧ isDigitC s1 ∧ isDigitC s2 then
                let hour := parse2Digits h1 h2
                let minute := parse2Digits m1 m2
                let second := parse2Digits s1 s2
                if isValidTime hour minute second 0 then
                  fastAfterSeconds
                    (dateToTicks year month day + timeToTicks hour minute second 0) rest3
                else none
              else none
            | _ => none
          else none
      else none
    else none
  | _ => none

/-- Maximal digit run, accumulating the value (the digit scans of the
flexible parser, e.g. DateTime.cpp lines 946-949). -/
def readDigitsRun : List Char → Nat → Nat → Nat × Nat × List Char
  | [], v, n => (v, n, [])
  | c :: cs, v, n =>
    if isDigitC c then readDigitsRun cs (v * 10 + (c.toNat - 48)) (n + 1)
    else (v, n, c :: cs)

/-- std::from_chars for int32 applied to a maximal digit run (the flexible
parser always pre-scans digits, so no sign is ever inside the window):
fails when there is no digit, or on int32 overflow (errc
result_out_of_range). -/
def readIntRun (l : List Char) : Option (Int × List Char) :=
  let r := readDigitsRun l 0 0
  if r.2.1 = 0 then none
  else if (r.1 : Int) ≤ 2147483647 then some ((r.1 : Int), r.2.2) else none

/-- std::from_chars for int32 over a bounded window that may begin with a
minus sign (used for the year field, DateTime.cpp lines 908-914). -/
def fromCharsInt32 (l : List Char) : Option (Int × List Char) :=
  match l with
  | '-' :: cs =>
    let r := readDigitsRun cs 0 0
    if r.2.1 = 0 then none
    else if (r.1 : Int) ≤ 2147483648 then some (-(r.1 : Int), r.2.2) else none
  | _ => readIntRun l

/-- find_last_of on the sign characters (DateTime.cpp line 891). -/
def findLastPM (l : List Char) : Option Nat :=
  (l.reverse.findIdx? fun c => c == '+' || c == '-').map (fun i => l.length - 1 - i)

/-- The final validation and tick assembly of the flexible parser
(DateTime.cpp lines 1055-1067). -/
def flexFinish (year month day hour minute second frac : Int) : Option Int :=
  if isValidDate year month day ∧ isValidTime hour minute second 0 then
    some (dateToTicks year month day + timeToTicks hour minute second 0 + frac)
  else none

/-- The time portion of the flexible parser (DateTime.cpp lines 961-1053):
hour, ':', minute, ':', second, then an optional fraction of at most 7
digits; characters after the consumed part are ignored. -/
def flexTimePart (year month day : Int) (l : List Char) : Option Int :=
  match readIntRun l with
  | some (hour, hrest) =>
    match hrest with
    | ':' :: mr =>
      match readIntRun mr with
      | some (minute, mirest) =>
        match mirest with
        | ':' :: sr =>
          match readIntRun sr with
          | some (second, srest) =>
            let frac : Int :=
              match srest with
              | '.' :: fr =>
                let f := readFraction7 fr 0 0
                if f.2.1 = 0 then 0 else padFractionTo7 f.2.1 f.1
              | _ => 0
            flexFinish year month day hour minute second frac
          | none => none
        | _ => none
      | none => none
    | _ => none
  | none => none

/-- The flexible fallback parser of DateTime::fromString (DateTime.cpp
lines 884-1068): strip a trailing Z, cut a zone suffix found after
position 10, then parse variable-width fields. -/
def fromStringFallback (s : List Char) : Option Int :=
  let s1 := if s.getLast? == some 'Z' then s.dropLast else s
  let s2 :=
    match findLastPM s1 with
    | some p => if 10 < p then s1.take p else s1
    | none => s1
  if s2.length < 4 then none
  else
    match fromCharsInt32 (s2.take 4) with
    | some (year, yrest) =>
      if yrest ≠ [] then none
      else
        match s2.drop 4 with
        | '-' :: _ =>
          match (s2.drop 5).findIdx? (fun c => c == '-') with
          | none => none
          | some k =>
            match readIntRun ((s2.drop 5).take k) with
            | some (month, mrest) =>
              if mrest ≠ [] then none
              else
                match readIntRun ((s2.drop 5).drop (k + 1)) with
                | some (day, drest) =>
                  match drest with
                  | 'T' :: tr => flexTimePart year month day tr
                  | _ => flexFinish year month day 0 0 0 0
                | none => none
            | none => none
        | _ => none
    | none => none

/-- DateTime::fromString (DateTime.cpp lines 865-1068): length guard, fast
path first, flexible fallback second. -/
def DateTime.fromString (s : List Char) : Option DateTime :=
  if s.length < 10 then none
  else
    match tryParseFastPath s with
    | some t => some ⟨t⟩
    | none => (fromStringFallback s).map fun t => (⟨t⟩ : DateTime)

def exPrecise2024 : List Char :=
  ['2','0','2','4','-','0','1','-','1','5','T','1','0',':','3','0',':','0','0',
   '.','1','2','3','4','5','6','7','Z']

/-! ### DateTimeOffset (DateTimeOffset.cpp) -/

def SECONDS_PER_HOUR : Int := 3600

/-- The zone-aware instant: a DateTime interpreted as local time paired with
an offset span (header nfx/datetime/DateTimeOffset.h, fields m_dateTime and
m_offset; the pair constructor stores both unchanged). -/
structure DateTimeOffset where
  m_dateTime : DateTime
  m_offset : TimeSpan
deriving DecidableEq

/-- internal::isValidOffset (DateTimeOffset.cpp lines 56-66).  Note: the C++
computes MAX_OFFSET_TICKS as HOURS_PER_DAY * SECONDS_PER_HOUR *
TICKS_PER_SECOND, i.e. 24 hours, although its comment says 14 hours; the
computation is embedded as written. -/
def isValidOffset (offset : TimeSpan) : Bool :=
  -(HOURS_PER_DAY * SECONDS_PER_HOUR * TICKS_PER_SECOND) ≤ offset.ticks &&
    offset.ticks ≤ HOURS_PER_DAY * SECONDS_PER_HOUR * TICKS_PER_SECOND

/-- Modelled from the spec: the totalOffsetMinutes accessor of the missing
header (spec section 3, minute-granularity offset); C++ integer division
truncates toward zero, hence Int.tdiv. -/
def DateTimeOffset.totalOffsetMinutes (dto : DateTimeOffset) : Int :=
  dto.m_offset.ticks.tdiv TICKS_PER_MINUTE

/-- Modelled from the spec: utcTicks of the missing header subtracts the
offset from the local tick value (spec section 4.5, toUniversal). -/
def DateTimeOffset.utcTicks (dto : DateTimeOffset) : Int :=
  dto.m_dateTime.m_ticks - dto.m_offset.ticks

/-- Component accessors of the header: delegate to the wrapped DateTime. -/
def DateTimeOffset.year (dto : DateTimeOffset) : Int := dto.m_dateTime.year

def DateTimeOffset.month (dto : DateTimeOffset) : Int := dto.m_dateTime.month

def DateTimeOffset.day (dto : DateTimeOffset) : Int := dto.m_dateTime.day

def DateTimeOffset.hour (dto : DateTimeOffset) : Int := dto.m_dateTime.hour

def DateTimeOffset.minute (dto : DateTimeOffset) : Int := dto.m_dateTime.minute

def DateTimeOffset.second (dto : DateTimeOffset) : Int := dto.m_dateTime.second

/-- DateTimeOffset::isValid (DateTimeOffset.cpp lines 687-690). -/
def DateTimeOffset.isValid (dto : DateTimeOffset) : Bool :=
  dto.m_dateTime.isValid && isValidOffset dto.m_offset

/-- The month-overflow loop of DateTimeOffset::addMonths (DateTimeOffset.cpp
lines 608-612): while month > 12, subtract 12 and carry a year.  The fuel
bounds the unbounded C++ while loop; addMonths passes enough fuel for the
loop to reach its exit condition (normMonthUp_spec below). -/
def normMonthUp : Nat → Int → Int → Int × Int
  | 0, month, year => (month, year)
  | fuel + 1, month, year =>
    if month > 12 then normMonthUp fuel (month - 12) (year + 1) else (month, year)

/-- The month-underflow loop of DateTimeOffset::addMonths (DateTimeOffset.cpp
lines 613-617): while month < 1, add 12 and borrow a year. -/
def normMonthDown : Nat → Int → Int → Int × Int
  | 0, month, year => (month, year)
  | fuel + 1, month, year =>
    if month < 1 then normMonthDown fuel (month + 12) (year - 1) else (month, year)

/-- DateTimeOffset::addMonths (DateTimeOffset.cpp lines 598-627). -/
def DateTimeOffset.addMonths (dto : DateTimeOffset) (months : Int) : DateTimeOffset :=
  let year := dto.m_dateTime.year
  let month := dto.m_dateTime.month
  let day := dto.m_dateTime.day
  let timeOfDay := dto.m_dateTime.timeOfDay
  let m0 := month + months
  let fuel := m0.natAbs + 12
  let p1 := normMonthUp fuel m0 year
  let p2 := normMonthDown fuel p1.1 p1.2
  let daysInTargetMonth := daysInMonth p2.2 p2.1
  let adjustedDay := min day daysInTargetMonth
  let newDate := (DateTime.ofYMD p2.2 p2.1 adjustedDay).addSpan timeOfDay
  ⟨newDate, dto.m_offset⟩

/-- DateTimeOffset::addYears (DateTimeOffset.cpp lines 634-637). -/
def DateTimeOffset.addYears (dto : DateTimeOffset) (years : Int) : DateTimeOffset :=
  dto.addMonths (years * 12)

/-- internal::appendOffset (DateTimeOffset.cpp lines 91-101). -/
def appendOffset (offsetMinutes : Int) : List Char :=
  let absMinutes : Int := offsetMinutes.natAbs
  let offsetHours := absMinutes / MINUTES_PER_HOUR
  let offsetMins := absMinutes % MINUTES_PER_HOUR
  (if offsetMinutes ≥ 0 then '+' else '-') ::
    (appendTwoDigits offsetHours ++ [':'] ++ appendTwoDigits offsetMins)

/-- internal::formatIso8601 for the offset type (DateTimeOffset.cpp lines
131-256): date, 'T', time, a dialect-dependent fraction, then the offset. -/
def formatIso8601WithOffset (dto : DateTimeOffset) (fmt : Format) : List Char :=
  appendFourDigits dto.year ++ ['-'] ++ appendTwoDigits dto.month ++ ['-'] ++
    appendTwoDigits dto.day ++ ['T'] ++ appendTwoDigits dto.hour ++ [':'] ++
    appendTwoDigits dto.minute ++ [':'] ++ appendTwoDigits dto.second ++
    (if fmt = Format.Iso8601Precise then
      appendFractionalSeconds (dto.m_dateTime.m_ticks % TICKS_PER_SECOND) 8
    else if fmt = Format.Iso8601PreciseTrimmed then
      appendFractionalSecondsTrimmed (dto.m_dateTime.m_ticks % TICKS_PER_SECOND)
    else if fmt = Format.Iso8601Millis then
      appendFractionalSeconds
        (dto.m_dateTime.m_ticks % TICKS_PER_SECOND / TICKS_PER_MILLISECOND) 4
    else if fmt = Format.Iso8601Micros then
      appendFractionalSeconds
        (dto.m_dateTime.m_ticks % TICKS_PER_SECOND / TICKS_PER_MICROSECOND) 7
    else []) ++
    appendOffset dto.totalOffsetMinutes

/-- internal::formatIso8601Basic for the offset type (DateTimeOffset.cpp
lines 104-128): compact digits and a ±HHMM offset without colon. -/
def formatIso8601BasicOffset (dto : DateTimeOffset) : List Char :=
  appendFourDigits dto.year ++ appendTwoDigits dto.month ++ appendTwoDigits dto.day ++
    ['T'] ++ appendTwoDigits dto.hour ++ appendTwoDigits dto.minute ++
    appendTwoDigits dto.second ++
    ((if dto.totalOffsetMinutes ≥ 0 then '+' else '-') ::
      (appendTwoDigits ((dto.totalOffsetMinutes.natAbs : Int) / MINUTES_PER_HOUR) ++
        appendTwoDigits ((dto.totalOffsetMinutes.natAbs : Int) % MINUTES_PER_HOUR)))

/-- internal::formatDateOnly (DateTimeOffset.cpp lines 259-270): no offset
is appended. -/
def formatDateOnly (dto : DateTimeOffset) : List Char :=
  appendFourDigits dto.year ++ ['-'] ++ appendTwoDigits dto.month ++ ['-'] ++
    appendTwoDigits dto.day

/-- internal::formatTimeOnly (DateTimeOffset.cpp lines 273-285). -/
def formatTimeOnly (dto : DateTimeOffset) : List Char :=
  appendTwoDigits dto.hour ++ [':'] ++ appendTwoDigits dto.minute ++ [':'] ++
    appendTwoDigits dto.second ++ appendOffset dto.totalOffsetMinutes

/-- Modelled from the spec: DateTimeOffset::toEpochSeconds of the missing
header reports Unix seconds of the UTC instant (spec section 6). -/
def DateTimeOffset.toEpochSeconds (dto : DateTimeOffset) : Int :=
  toEpochSecondsOfTicks dto.utcTicks

/-- Modelled from the spec: DateTimeOffset::toEpochMilliseconds of the
missing header (spec section 6). -/
def DateTimeOffset.toEpochMilliseconds (dto : DateTimeOffset) : Int :=
  toEpochMillisecondsOfTicks dto.utcTicks

/-- DateTimeOffset::toString (DateTimeOffset.cpp lines 643-681). -/
def DateTimeOffset.toString (dto : DateTimeOffset) (fmt : Format) : List Char :=
  match fmt with
  | .Iso8601 => formatIso8601WithOffset dto fmt
  | .Iso8601Precise => formatIso8601WithOffset dto fmt
  | .Iso8601PreciseTrimmed => formatIso8601WithOffset dto fmt
  | .Iso8601Millis => formatIso8601WithOffset dto fmt
  | .Iso8601Micros => formatIso8601WithOffset dto fmt
  | .Iso8601Extended => formatIso8601WithOffset dto fmt
  | .Iso8601Basic => formatIso8601BasicOffset dto
  | .Iso8601Date => formatDateOnly dto
  | .Iso8601Time => formatTimeOnly dto
  | .UnixSeconds => intToString dto.toEpochSeconds
  | .UnixMilliseconds => intToString dto.toEpochMilliseconds

/-! ### Offset parsing (DateTimeOffset.cpp lines 333-499 and 738-886) -/

/-- The zone-suffix step of tryParseFastPathOffset (DateTimeOffset.cpp lines
414-481): a bare Z, or a sign with exactly HH:MM covering the rest of the
input; returns the offset in minutes. -/
def fastOffsetSuffix (rest : List Char) : Option Int :=
  match rest with
  | [] => none
  | 'Z' :: tail => if tail = [] then some 0 else none
  | c :: tail =>
    if c = '+' ∨ c = '-' then
      match tail with
      | o1 :: o2 :: cc :: o3 :: o4 :: tail2 =>
        if tail2 = [] ∧ cc = ':' ∧ isDigitC o1 = true ∧ isDigitC o2 = true ∧
            isDigitC o3 = true ∧ isDigitC o4 = true then
          let offsetHours := parse2Digits o1 o2
          let offsetMinutes := parse2Digits o3 o4
          if offsetHours < 0 ∨ offsetHours > 14 ∨ offsetMinutes < 0 ∨ offsetMinutes > 59 then
            none
          else if offsetHours = 14 ∧ offsetMinutes > 0 then none
          else
            some (if c = '-' then -(offsetHours * 60 + offsetMinutes)
              else offsetHours * 60 + offsetMinutes)
        else none
      | _ => none
    else none

/-- The DateTime assembly of tryParseFastPathOffset (DateTimeOffset.cpp
lines 483-495): component constructor with the millisecond part of the
fraction, then the remaining sub-millisecond ticks added on top. -/
def fastOffsetBuild (year month day hour minute second fracTicks : Int) : DateTime :=
  let milliseconds := fracTicks / TICKS_PER_MILLISECOND
  let dt := DateTime.ofYMDHMSms year month day hour minute second milliseconds
  let remainingTicks := fracTicks % TICKS_PER_MILLISECOND
  if remainingTicks > 0 then ⟨dt.m_ticks + remainingTicks⟩ else dt

/-- tryParseFastPathOffset (DateTimeOffset.cpp lines 333-499). -/
def tryParseFastPathOffset (s : List Char) : Option DateTimeOffset :=
  match s with
  | c0 :: c1 :: c2 :: c3 :: c4 :: c5 :: c6 :: c7 :: c8 :: c9 :: c10 :: c11 :: c12 :: c13 ::
      c14 :: c15 :: c16 :: c17 :: c18 :: rest =>
    if c4 = '-' ∧ c7 = '-' ∧ c10 = 'T' ∧ c13 = ':' ∧ c16 = ':' ∧ isDigitC c0 ∧ isDigitC c1 ∧
        isDigitC c2 ∧ isDigitC c3 ∧ isDigitC c5 ∧ isDigitC c6 ∧ isDigitC c8 ∧ isDigitC c9 ∧
        isDigitC c11 ∧ isDigitC c12 ∧ isDigitC c14 ∧ isDigitC c15 ∧ isDigitC c17 ∧
        isDigitC c18 then
      if rest = [] then none  -- minimum length 20
      else
        let year := parse4Digits c0 c1 c2 c3
        let month := parse2Digits c5 c6
        let day := parse2Digits c8 c9
        let hour := parse2Digits c11 c12
        let minute := parse2Digits c14 c15
        let second := parse2Digits c17 c18
        if month < 1 ∨ month > 12 ∨ day < 1 ∨ day > 31 ∨ hour < 0 ∨ hour > 23 ∨
            minute < 0 ∨ minute > 59 ∨ second < 0 ∨ second > 59 then none
        else if day > daysInMonth year month then none
        else
          match rest with
          | '.' :: fs =>
            let fr := readFraction7 fs 0 0
            if fr.2.1 = 0 then none
            else
              let fracTicks := padFractionTo7 fr.2.1 fr.1
              match fastOffsetSuffix (fr.2.2.dropWhile isDigitC) with
              | some offMinutes =>
                some ⟨fastOffsetBuild year month day hour minute second fracTicks,
                  TimeSpan.fromMinutes offMinutes⟩
              | none => none
          | _ =>
            match fastOffsetSuffix rest with
            | some offMinutes =>
              some ⟨fastOffsetBuild year month day hour minute second 0,
                TimeSpan.fromMinutes offMinutes⟩
            | none => none
    else none
  | _ => none

/-- The offset-suffix parser of the flexible DateTimeOffset::fromString
(DateTimeOffset.cpp lines 793-875): ±HH:MM, ±HHMM, ±HH or ±H, with the
range check hour in [0,14], minute in [0,59] and 14:00 as the exact
ceiling.  The input starts at the sign character. -/
def flexOffsetSuffix (offsetStr : List Char) : Option Int :=
  if offsetStr.length < 2 then none
  else
    let isNegative := offsetStr.headD ' ' = '-'
    let numericPart := offsetStr.drop 1
    let parsed : Option (Int × Int) :=
      match numericPart.findIdx? (fun c => c == ':') with
      | some colonPos =>
        if colonPos = 0 ∨ colonPos ≥ numericPart.length - 1 then none
        else
          match fromCharsInt32 (numericPart.take colonPos),
              fromCharsInt32 (numericPart.drop (colonPos + 1)) with
          | some (hh, hrest), some (mm, mrest) =>
            if hrest = [] ∧ mrest = [] then some (hh, mm) else none
          | _, _ => none
      | none =>
        if numericPart.length = 4 then
          match fromCharsInt32 (numericPart.take 2), fromCharsInt32 (numericPart.drop 2) with
          | some (hh, hrest), some (mm, mrest) =>
            if hrest = [] ∧ mrest = [] then some (hh, mm) else none
          | _, _ => none
        else if numericPart.length = 2 ∨ numericPart.length = 1 then
          match fromCharsInt32 numericPart with
          | some (hh, hrest) => if hrest = [] then some (hh, 0) else none
          | none => none
        else none
    match parsed with
    | none => none
    | some (hours, minutes) =>
      if hours < 0 ∨ hours > 14 ∨ minutes < 0 ∨ minutes > 59 then none
      else if hours = 14 ∧ minutes > 0 then none
      else
        let totalMinutes := hours * MINUTES_PER_HOUR + minutes
        some (if isNegative then -totalMinutes else totalMinutes)

/-- The right-to-left zone-indicator scan of DateTimeOffset::fromString
(DateTimeOffset.cpp lines 764-775): the last index of Z, '+' or '-' at a
position of at least 10. -/
def findOffsetIndicator (s : List Char) : Option Nat :=
  ((s.drop 10).reverse.findIdx? fun c => c == 'Z' || c == '+' || c == '-').map
    (fun i => 10 + ((s.drop 10).length - 1 - i))

/-- DateTimeOffset::fromString (DateTimeOffset.cpp lines 738-886): fast path
first, then the flexible zone-suffix handling wrapped around
DateTime::fromString. -/
def DateTimeOffset.fromString (s : List Char) : Option DateTimeOffset :=
  match tryParseFastPathOffset s with
  | some r => some r
  | none =>
    let offAndRest : Option (Int × List Char) :=
      match findOffsetIndicator s with
      | none => some (0, s)
      | some p =>
        if s.getD (p - 1) ' ' = '+' ∨ s.getD (p - 1) ' ' = '-' then none
        else if s.getD p ' ' = 'Z' then some (0, s.take p)
        else
          match flexOffsetSuffix (s.drop p) with
          | some offMinutes => some (offMinutes, s.take p)
          | none => none
    match offAndRest with
    | none => none
    | some (offMinutes, dateTimeStr) =>
      match DateTime.fromString dateTimeStr with
      | some dt => some ⟨dt, TimeSpan.fromMinutes offMinutes⟩
      | none => none

def exNoZone : List Char :=
  ['2','0','2','4','-','0','1','-','1','5','T','1','0',':','3','0',':','0','0']

def exFrac8 : List Char :=
  ['2','0','2','4','-','0','1','-','1','5','T','1','0',':','3','0',':','0','0',
   '.','1','2','3','4','5','6','7','8']

/-- A character is a decimal digit byte. -/
def isDigitByte (c : Char) : Prop := ∃ k : Nat, k ≤ 9 ∧ c = Char.ofNat ('0'.toNat + k)

def exOffsetBase : List Char :=
  ['2','0','2','4','-','0','6','-','0','1','T','0','0',':','0','0',':','0','0']


/-! ## Theorems -/

theorem isLeapYear_iff (y : Int) :
    isLeapYear y = true ↔ (y % 4 = 0 ∧ (y % 100 ≠ 0 ∨ y % 400 = 0)) := by
  simp [isLeapYear]

theorem isValidDate_iff (y m d : Int) :
    isValidDate y m d = true ↔
      (1 ≤ y ∧ y ≤ 9999 ∧ 1 ≤ m ∧ m ≤ 12 ∧ 1 ≤ d ∧ d ≤ daysInMonth y m) := by
  unfold isValidDate MIN_YEAR MAX_YEAR
  split_ifs <;> simp <;> omega

theorem isValidTime_iff (h mi s ms : Int) :
    isValidTime h mi s ms = true ↔
      (0 ≤ h ∧ h ≤ 23 ∧ 0 ≤ mi ∧ mi ≤ 59 ∧ 0 ≤ s ∧ s ≤ 59 ∧ 0 ≤ ms ∧ ms ≤ 999) := by
  simp [isValidTime, HOURS_PER_DAY, MINUTES_PER_HOUR, SECONDS_PER_MINUTE,
    MILLISECONDS_PER_SECOND, and_assoc]

theorem daysInMonth_bounds (y m : Int) : 28 ≤ daysInMonth y m ∧ daysInMonth y m ≤ 31 := by
  unfold daysInMonth
  split_ifs <;> omega

theorem daysBeforeMonth_one (y : Int) : daysBeforeMonth y 1 = 0 := rfl

theorem daysBeforeMonth_succ (y month : Int) (h : 1 ≤ month) :
    daysBeforeMonth y (month + 1) = daysBeforeMonth y month + daysInMonth y month := by
  unfold daysBeforeMonth
  have h1 : (month + 1 - 1).toNat = (month - 1).toNat + 1 := by omega
  rw [h1]
  simp only [daysBeforeMonthAux]
  have h2 : ((month - 1).toNat : Int) + 1 = month := by omega
  rw [h2]

theorem daysBeforeMonth_le (y m1 m2 : Int) (h1 : 1 ≤ m1) (h2 : m1 ≤ m2) :
    daysBeforeMonth y m1 ≤ daysBeforeMonth y m2 := by
  have key : ∀ (k : Nat), ∀ m, 1 ≤ m → daysBeforeMonth y m ≤ daysBeforeMonth y (m + k) := by
    intro k
    induction k with
    | zero => intro m hm; simp
    | succ n ih =>
      intro m hm
      have step := daysBeforeMonth_succ y (m + n) (by omega)
      have hdim := daysInMonth_bounds y (m + n)
      have hcast : (m + (n + 1 : Nat) : Int) = (m + n) + 1 := by push_cast; ring
      rw [hcast, step]
      have := ih m hm
      omega
  have hk : m2 = m1 + ((m2 - m1).toNat : Int) := by omega
  rw [hk]
  exact key _ m1 h1

theorem daysBeforeMonth_nonneg (y m : Int) : 0 ≤ daysBeforeMonth y m := by
  unfold daysBeforeMonth
  induction (m - 1).toNat with
  | zero => simp [daysBeforeMonthAux]
  | succ n ih =>
    have := (daysInMonth_bounds y ((n : Int) + 1)).1
    simp only [daysBeforeMonthAux]
    omega

theorem daysBeforeMonth_13 (y : Int) : daysBeforeMonth y 13 = daysInYear y := by
  cases hL : isLeapYear y <;>
    simp [daysBeforeMonth, daysBeforeMonthAux, daysInMonth, daysInYear, hL]

theorem daysBeforeYear_nonneg (y : Int) (h : 1 ≤ y) : 0 ≤ daysBeforeYear y := by
  simp only [daysBeforeYear, DAYS_PER_400_YEARS, DAYS_PER_100_YEARS, DAYS_PER_4_YEARS,
    DAYS_PER_YEAR]
  omega

theorem yearFromDays_forward_aux (a b r : Int)
    (hb0 : 0 ≤ b) (hb : b < 400) (hr0 : 0 ≤ r) (hr : r ≤ 365)
    (h365 : r = 365 → b % 4 = 3 ∧ (b % 100 ≠ 99 ∨ b = 399)) :
    yearFromDays (a * 146097 + b / 100 * 36524 + b % 100 / 4 * 1461 + b % 100 % 4 * 365 + r)
      = (1 + 400 * a + b, r) := by
  set q := b / 100 with hq
  set e := b % 100 with he
  set i := e / 4 with hi
  set f := e % 4 with hf
  have hqb : 0 ≤ q ∧ q ≤ 3 := by omega
  have heb : 0 ≤ e ∧ e ≤ 99 ∧ b = 100 * q + e := by omega
  have hib : 0 ≤ i ∧ i ≤ 24 ∧ 0 ≤ f ∧ f ≤ 3 ∧ e = 4 * i + f := by omega
  have hb4 : b % 4 = f := by omega
  simp only [yearFromDays, DAYS_PER_400_YEARS, DAYS_PER_100_YEARS, DAYS_PER_4_YEARS,
    DAYS_PER_YEAR]
  have hT1 : (a * 146097 + q * 36524 + i * 1461 + f * 365 + r) / 146097 = a := by omega
  have hT2 : (a * 146097 + q * 36524 + i * 1461 + f * 365 + r) % 146097
      = q * 36524 + i * 1461 + f * 365 + r := by omega
  rw [hT1, hT2]
  by_cases hY : i * 1461 + f * 365 + r = 36524
  · have hifr : i = 24 ∧ f = 3 ∧ r = 365 := by omega
    have hq3 : q = 3 := by
      obtain ⟨h4, h100⟩ := h365 hifr.2.2
      omega
    have c1 : (q * 36524 + i * 1461 + f * 365 + r) / 36524 = 4 := by omega
    rw [c1]
    norm_num
    have c2 : (q * 36524 + i * 1461 + f * 365 + r - 109572) / 1461 = 24 := by omega
    have c3 : (q * 36524 + i * 1461 + f * 365 + r - 109572) % 1461 = 1460 := by omega
    rw [c2, c3]
    norm_num
    omega
  · have c1 : (q * 36524 + i * 1461 + f * 365 + r) / 36524 = q := by omega
    rw [c1]
    have hqn : ¬ (q > 3) := by omega
    rw [if_neg hqn]
    have c2 : (q * 36524 + i * 1461 + f * 365 + r - q * 36524) / 1461 = i := by omega
    have c3 : (q * 36524 + i * 1461 + f * 365 + r - q * 36524) % 1461 = f * 365 + r := by
      omega
    rw [c2, c3]
    by_cases hr365 : r = 365
    · have hf3 : f = 3 := by
        have := h365 hr365
        omega
      have c4 : (f * 365 + r) / 365 = 4 := by omega
      rw [c4]
      norm_num
      omega
    · have c4 : (f * 365 + r) / 365 = f := by omega
      rw [c4]
      have hfn : ¬ (f > 3) := by omega
      rw [if_neg hfn]
      simp only [Prod.mk.injEq]
      omega

theorem yearFromDays_daysBeforeYear (y r : Int) (hy1 : 1 ≤ y) (hy2 : y ≤ 9999)
    (hr0 : 0 ≤ r) (hr : r < daysInYear y) :
    yearFromDays (daysBeforeYear y + r) = (y, r) := by
  have hley := isLeapYear_iff y
  have hreq : r ≤ 365 := by
    unfold daysInYear at hr
    split_ifs at hr <;> omega
  have h365 : r = 365 →
      (y - 1) % 400 % 4 = 3 ∧ ((y - 1) % 400 % 100 ≠ 99 ∨ (y - 1) % 400 = 399) := by
    intro hre
    have hleap : isLeapYear y = true := by
      unfold daysInYear at hr
      split_ifs at hr with hh
      · exact hh
      · omega
    rw [hley] at hleap
    omega
  have haux := yearFromDays_forward_aux ((y - 1) / 400) ((y - 1) % 400) r
    (by omega) (by omega) hr0 hreq h365
  simp only [daysBeforeYear, DAYS_PER_400_YEARS, DAYS_PER_100_YEARS, DAYS_PER_4_YEARS,
    DAYS_PER_YEAR]
  rw [haux]
  simp only [Prod.mk.injEq, and_true]
  omega

theorem monthLoop_forward_aux (y : Int) (fuel : Nat) :
    ∀ (month m d : Int), 1 ≤ month → month ≤ m → m ≤ 12 → (13 : Int) - month ≤ fuel →
    1 ≤ d → d ≤ daysInMonth y m →
    monthLoop y fuel month (daysBeforeMonth y m - daysBeforeMonth y month + (d - 1))
      = (m, d - 1) := by
  induction fuel with
  | zero => intro month m d h1 h2 h3 h4 h5 h6; omega
  | succ n ih =>
    intro month m d h1 h2 h3 h4 h5 h6
    simp only [monthLoop]
    rcases eq_or_lt_of_le h2 with heq | hlt
    · subst heq
      rw [if_pos (by omega)]
      simp only [Prod.mk.injEq, true_and, and_true]
      omega
    · have hstep := daysBeforeMonth_succ y month h1
      have hle := daysBeforeMonth_le y (month + 1) m (by omega) (by omega)
      rw [if_neg (by omega)]
      have harg : daysBeforeMonth y m - daysBeforeMonth y month + (d - 1) - daysInMonth y month
          = daysBeforeMonth y m - daysBeforeMonth y (month + 1) + (d - 1) := by omega
      rw [harg]
      exact ih (month + 1) m d (by omega) (by omega) h3 (by omega) h5 h6

theorem monthLoop_backward_aux (y : Int) (fuel : Nat) :
    ∀ (month r : Int), 1 ≤ month → month ≤ 12 → (13 : Int) - month ≤ fuel → 0 ≤ r →
    daysBeforeMonth y month + r < daysInYear y →
    month ≤ (monthLoop y fuel month r).1 ∧ (monthLoop y fuel month r).1 ≤ 12 ∧
      0 ≤ (monthLoop y fuel month r).2 ∧
      (monthLoop y fuel month r).2 < daysInMonth y (monthLoop y fuel month r).1 ∧
      daysBeforeMonth y (monthLoop y fuel month r).1 + (monthLoop y fuel month r).2
        = daysBeforeMonth y month + r := by
  induction fuel with
  | zero => intro month r h1 h2 h3 h4 h5; omega
  | succ n ih =>
    intro month r h1 h2 h3 h4 h5
    simp only [monthLoop]
    by_cases hcond : r < daysInMonth y month
    · rw [if_pos hcond]
      exact ⟨le_refl _, h2, h4, hcond, rfl⟩
    · rw [if_neg hcond]
      have hstep := daysBeforeMonth_succ y month h1
      have hm12 : month < 12 := by
        by_contra hc
        have hm : month = 12 := by omega
        subst hm
        have h13 := daysBeforeMonth_13 y
        have hst : daysBeforeMonth y 13 = daysBeforeMonth y 12 + daysInMonth y 12 := by
          have h0 := daysBeforeMonth_succ y 12 (by omega)
          norm_num at h0
          exact h0
        have := daysInMonth_bounds y 12
        omega
      have hrec := ih (month + 1) (r - daysInMonth y month) (by omega) (by omega) (by omega)
        (by omega) (by omega)
      have hrw : daysBeforeMonth y (month + 1) + (r - daysInMonth y month)
          = daysBeforeMonth y month + r := by omega
      refine ⟨by omega, hrec.2.1, hrec.2.2.1, hrec.2.2.2.1, by omega⟩

/-- Shared round-trip lemma: extracting the date components of a valid
date's tick count, plus any time-of-day remainder, recovers the
components. -/
theorem dateComponentsFromTicks_of_valid (y m d T : Int) (h : isValidDate y m d = true)
    (hT0 : 0 ≤ T) (hT1 : T < TICKS_PER_DAY) :
    dateComponentsFromTicks (dateToTicks y m d + T) = (y, m, d) := by
  rw [isValidDate_iff] at h
  obtain ⟨hy1, hy2, hm1, hm2, hd1, hd2⟩ := h
  have hR2 : daysBeforeMonth y m + (d - 1) < daysInYear y := by
    have hsucc := daysBeforeMonth_succ y m (by omega)
    have hle := daysBeforeMonth_le y (m + 1) 13 (by omega) (by omega)
    have h13 := daysBeforeMonth_13 y
    omega
  have hR1 : 0 ≤ daysBeforeMonth y m + (d - 1) := by
    have := daysBeforeMonth_nonneg y m
    omega
  have hBY := daysBeforeYear_nonneg y hy1
  have hmain : dateToTicks y m d + T
      = (daysBeforeYear y + (daysBeforeMonth y m + (d - 1))) * TICKS_PER_DAY + T := by
    unfold dateToTicks
    ring_nf
  have hdiv : ((daysBeforeYear y + (daysBeforeMonth y m + (d - 1))) * TICKS_PER_DAY + T)
      / TICKS_PER_DAY = daysBeforeYear y + (daysBeforeMonth y m + (d - 1)) := by
    unfold TICKS_PER_DAY at hT1 ⊢
    omega
  have hyear := yearFromDays_daysBeforeYear y (daysBeforeMonth y m + (d - 1)) hy1 hy2 hR1 hR2
  have hmonth := monthLoop_forward_aux y 12 1 m d (by omega) (by omega) (by omega)
    (by omega) (by omega) hd2
  rw [daysBeforeMonth_one, sub_zero] at hmonth
  unfold dateComponentsFromTicks
  rw [hmain, hdiv]
  simp only [hyear, hmonth]
  simp only [Prod.mk.injEq, true_and]
  omega

/-- Claim C1: converting a valid calendar date to ticks with dateToTicks and
back with dateComponentsFromTicks recovers exactly the original components. -/
theorem c1_dateToTicks_roundtrip (y m d : Int) (h : isValidDate y m d = true) :
    dateComponentsFromTicks (dateToTicks y m d) = (y, m, d) := by
  have := dateComponentsFromTicks_of_valid y m d 0 h (le_refl 0) (by decide)
  rwa [add_zero] at this

/-- Witness for C1 at the leap-day date 2024-02-29. -/
theorem c1_dateToTicks_roundtrip_witness :
    isValidDate 2024 2 29 = true ∧
      dateComponentsFromTicks (dateToTicks 2024 2 29) = (2024, 2, 29) :=
  ⟨by decide, c1_dateToTicks_roundtrip 2024 2 29 (by decide)⟩

/-- Claim C5: every DateTime component constructor, on any invalid component
combination, never fails and stores exactly the minimum representable tick
count MIN_DATETIME_TICKS. -/
theorem c5_invalid_components_clamp_to_min (y m d h mi s ms : Int) :
    (isValidDate y m d = false → (DateTime.ofYMD y m d).ticks = MIN_DATETIME_TICKS) ∧
      (¬ (isValidDate y m d = true ∧ isValidTime h mi s 0 = true) →
        (DateTime.ofYMDHMS y m d h mi s).ticks = MIN_DATETIME_TICKS) ∧
      (¬ (isValidDate y m d = true ∧ isValidTime h mi s ms = true) →
        (DateTime.ofYMDHMSms y m d h mi s ms).ticks = MIN_DATETIME_TICKS) := by
  refine ⟨fun hv => ?_, fun hv => ?_, fun hv => ?_⟩
  · simp [DateTime.ofYMD, hv, DateTime.ticks]
  · rw [DateTime.ofYMDHMS, if_pos hv]
    rfl
  · rw [DateTime.ofYMDHMSms, if_pos hv]
    rfl

/-- Witness for C5 at day = 32. -/
theorem c5_invalid_components_clamp_to_min_witness :
    isValidDate 2024 1 32 = false ∧
      (DateTime.ofYMD 2024 1 32).ticks = MIN_DATETIME_TICKS :=
  ⟨by decide, (c5_invalid_components_clamp_to_min 2024 1 32 0 0 0 0).1 (by decide)⟩

/-- Counterexample to claim C4: the component constructor called with the
invalid day 32 stores the MIN_DATETIME_TICKS sentinel, but isValid() on the
resulting value returns true, not false: the sentinel itself lies inside the
valid tick range, so the validity query cannot detect the invalid input. -/
theorem c4_counterexample :
    isValidDate 2024 1 32 = false ∧
      (DateTime.ofYMD 2024 1 32).ticks = MIN_DATETIME_TICKS ∧
      (DateTime.ofYMD 2024 1 32).isValid = true := by
  refine ⟨by decide, by decide, by decide⟩

/-- Claim C4 as amended: for every component combination rejected by the
validators the constructor still produces a value (the MIN_DATETIME_TICKS
sentinel), but the explicit validity query isValid() on that resulting value
returns true, because the sentinel is itself a tick value inside the valid
range; so the caller cannot detect the invalid inputs through isValid()
and must compare against the sentinel instead. -/
theorem c4_amended_sentinel_isValid_true (y m d : Int)
    (hv : isValidDate y m d = false) :
    (DateTime.ofYMD y m d).ticks = MIN_DATETIME_TICKS ∧
      (DateTime.ofYMD y m d).isValid = true := by
  have ht : (DateTime.ofYMD y m d).ticks = MIN_DATETIME_TICKS := by
    simp [DateTime.ofYMD, hv, DateTime.ticks]
  refine ⟨ht, ?_⟩
  have hm : (DateTime.ofYMD y m d).m_ticks = MIN_DATETIME_TICKS := ht
  simp [DateTime.isValid, hm, MIN_DATETIME_TICKS, MAX_DATETIME_TICKS]

/-- Witness for the amended C4 at day = 32. -/
theorem c4_amended_sentinel_isValid_true_witness :
    isValidDate 2024 1 32 = false ∧
      ((DateTime.ofYMD 2024 1 32).ticks = MIN_DATETIME_TICKS ∧
        (DateTime.ofYMD 2024 1 32).isValid = true) :=
  ⟨by decide, c4_amended_sentinel_isValid_true 2024 1 32 (by decide)⟩

/-! ### Backward direction: from ticks to components -/

theorem daysInYear_lb (y : Int) : 365 ≤ daysInYear y ∧ daysInYear y ≤ 366 := by
  unfold daysInYear
  split_ifs <;> omega

theorem daysBeforeYear_succ (y : Int) :
    daysBeforeYear (y + 1) = daysBeforeYear y + daysInYear y := by
  have hiff := isLeapYear_iff y
  simp only [daysBeforeYear, daysInYear, DAYS_PER_400_YEARS, DAYS_PER_100_YEARS,
    DAYS_PER_4_YEARS, DAYS_PER_YEAR]
  split_ifs with hL
  · rw [hiff] at hL
    omega
  · have hnL : ¬ (y % 4 = 0 ∧ (y % 100 ≠ 0 ∨ y % 400 = 0)) := by
      rw [← hiff]
      simp [hL]
    omega

theorem daysBeforeYear_surjective (n : Nat) : (n : Int) ≤ 3652058 →
    ∃ y r : Int, 1 ≤ y ∧ y ≤ 9999 ∧ 0 ≤ r ∧ r < daysInYear y ∧
      daysBeforeYear y + r = (n : Int) := by
  induction n with
  | zero =>
    intro _
    refine ⟨1, 0, by omega, by omega, by omega, by decide, by decide⟩
  | succ n ih =>
    intro hle
    obtain ⟨y, r, hy1, hy2, hr0, hrlt, heq⟩ := ih (by push_cast at hle ⊢; omega)
    by_cases hnext : r + 1 < daysInYear y
    · exact ⟨y, r + 1, hy1, hy2, by omega, hnext, by push_cast; omega⟩
    · have hrtop : r + 1 = daysInYear y := by omega
      have hy9999 : y ≠ 9999 := by
        intro hyc
        subst hyc
        have hd1 : daysInYear 9999 = 365 := by decide
        have hd2 : daysBeforeYear 9999 = 3651694 := by decide
        push_cast at hle
        omega
      refine ⟨y + 1, 0, by omega, by omega, by omega, by have := daysInYear_lb (y + 1); omega, ?_⟩
      rw [daysBeforeYear_succ y]
      push_cast
      omega

theorem yearFromDays_backward (td : Int) (h0 : 0 ≤ td) (h1 : td ≤ 3652058) :
    ∃ y r : Int, yearFromDays td = (y, r) ∧ 1 ≤ y ∧ y ≤ 9999 ∧ 0 ≤ r ∧
      r < daysInYear y ∧ daysBeforeYear y + r = td := by
  obtain ⟨y, r, hy1, hy2, hr0, hrlt, heq⟩ := daysBeforeYear_surjective td.toNat
    (by omega)
  rw [Int.toNat_of_nonneg h0] at heq
  refine ⟨y, r, ?_, hy1, hy2, hr0, hrlt, heq⟩
  rw [← heq]
  exact yearFromDays_daysBeforeYear y r hy1 hy2 hr0 hrlt

theorem dateComponentsFromTicks_spec (t : Int) (h0 : 0 ≤ t) (h1 : t ≤ MAX_DATETIME_TICKS) :
    ∃ y m d : Int, dateComponentsFromTicks t = (y, m, d) ∧ isValidDate y m d = true ∧
      dateToTicks y m d = t / TICKS_PER_DAY * TICKS_PER_DAY := by
  have htd0 : 0 ≤ t / TICKS_PER_DAY := by
    unfold TICKS_PER_DAY
    omega
  have htd1 : t / TICKS_PER_DAY ≤ 3652058 := by
    unfold TICKS_PER_DAY
    unfold MAX_DATETIME_TICKS at h1
    omega
  obtain ⟨y, r, hyr, hy1, hy2, hr0, hrlt, heq⟩ := yearFromDays_backward _ htd0 htd1
  have hml := monthLoop_backward_aux y 12 1 r (by omega) (by omega) (by omega) hr0
    (by rw [daysBeforeMonth_one]; omega)
  obtain ⟨hm1, hm2, hdd0, hddlt, hdbm⟩ := hml
  rw [daysBeforeMonth_one] at hdbm
  refine ⟨y, (monthLoop y 12 1 r).1, (monthLoop y 12 1 r).2 + 1, ?_, ?_, ?_⟩
  · unfold dateComponentsFromTicks
    simp only [hyr]
  · rw [isValidDate_iff]
    exact ⟨hy1, hy2, hm1, hm2, by omega, by omega⟩
  · unfold dateToTicks
    have : daysBeforeMonth y (monthLoop y 12 1 r).1 + ((monthLoop y 12 1 r).2 + 1 - 1)
        = r := by omega
    rw [show daysBeforeYear y + daysBeforeMonth y (monthLoop y 12 1 r).1 +
        ((monthLoop y 12 1 r).2 + 1 - 1) = daysBeforeYear y + r by omega, heq]

theorem timeComponentsFromTicks_spec (t : Int) (h0 : 0 ≤ t) :
    0 ≤ (timeComponentsFromTicks t).1 ∧ (timeComponentsFromTicks t).1 ≤ 23 ∧
      0 ≤ (timeComponentsFromTicks t).2.1 ∧ (timeComponentsFromTicks t).2.1 ≤ 59 ∧
      0 ≤ (timeComponentsFromTicks t).2.2.1 ∧ (timeComponentsFromTicks t).2.2.1 ≤ 59 ∧
      timeToTicks (timeComponentsFromTicks t).1 (timeComponentsFromTicks t).2.1
          (timeComponentsFromTicks t).2.2.1 0 + t % TICKS_PER_SECOND
        = t % TICKS_PER_DAY := by
  simp only [timeComponentsFromTicks, timeToTicks, TICKS_PER_DAY, TICKS_PER_HOUR,
    TICKS_PER_MINUTE, TICKS_PER_SECOND, TICKS_PER_MILLISECOND]
  refine ⟨by omega, by omega, by omega, by omega, by omega, by omega, by omega⟩

/-! ### Digit-level round-trip lemmas -/

theorem isDigitC_ofNat (k : Nat) (hk : k ≤ 9) :
    isDigitC (Char.ofNat ('0'.toNat + k)) = true := by
  interval_cases k <;> decide

theorem toNat_ofNat_digit (k : Nat) (hk : k ≤ 9) :
    ((Char.ofNat ('0'.toNat + k)).toNat : Int) = 48 + k := by
  interval_cases k <;> decide

theorem parse2_appendTwo (v : Int) (h0 : 0 ≤ v) (h1 : v ≤ 99) :
    parse2Digits (Char.ofNat ('0'.toNat + (v / 10).toNat))
      (Char.ofNat ('0'.toNat + (v % 10).toNat)) = v := by
  unfold parse2Digits
  rw [toNat_ofNat_digit _ (by omega), toNat_ofNat_digit _ (by omega)]
  have e1 : ((v / 10).toNat : Int) = v / 10 := Int.toNat_of_nonneg (by omega)
  have e2 : ((v % 10).toNat : Int) = v % 10 := Int.toNat_of_nonneg (by omega)
  push_cast
  rw [e1, e2]
  omega

theorem parse4_appendFour (v : Int) (h0 : 0 ≤ v) (h1 : v ≤ 9999) :
    parse4Digits (Char.ofNat ('0'.toNat + (v / 1000).toNat))
      (Char.ofNat ('0'.toNat + (v / 100 % 10).toNat))
      (Char.ofNat ('0'.toNat + (v / 10 % 10).toNat))
      (Char.ofNat ('0'.toNat + (v % 10).toNat)) = v := by
  unfold parse4Digits
  rw [toNat_ofNat_digit _ (by omega), toNat_ofNat_digit _ (by omega),
    toNat_ofNat_digit _ (by omega), toNat_ofNat_digit _ (by omega)]
  have e1 : ((v / 1000).toNat : Int) = v / 1000 := Int.toNat_of_nonneg (by omega)
  have e2 : ((v / 100 % 10).toNat : Int) = v / 100 % 10 := Int.toNat_of_nonneg (by omega)
  have e3 : ((v / 10 % 10).toNat : Int) = v / 10 % 10 := Int.toNat_of_nonneg (by omega)
  have e4 : ((v % 10).toNat : Int) = v % 10 := Int.toNat_of_nonneg (by omega)
  push_cast
  rw [e1, e2, e3, e4]
  omega

theorem readFraction7_stop (l : List Char) (acc : Int) :
    readFraction7 l acc 7 = (acc, 7, l) := by
  cases l with
  | nil => rfl
  | cons c cs => simp [readFraction7]

theorem readFraction7_pad (n : Nat) : ∀ (k : Nat) (acc v : Int) (rest : List Char),
    k + n ≤ 7 → 0 ≤ v → v < 10 ^ n →
    readFraction7 (padDigits n v ++ rest) acc k
      = readFraction7 rest (acc * 10 ^ n + v) (k + n) := by
  induction n with
  | zero =>
    intro k acc v rest hk h0 h1
    have hv : v = 0 := by omega
    subst hv
    simp [padDigits]
  | succ n ih =>
    intro k acc v rest hk h0 h1
    have hstep : padDigits (n + 1) v ++ rest
        = padDigits n (v / 10) ++ (Char.ofNat ('0'.toNat + (v % 10).toNat) :: rest) := by
      simp [padDigits]
    rw [hstep]
    have hdivlt : v / 10 < 10 ^ n := by
      have : (10 : Int) ^ (n + 1) = 10 ^ n * 10 := by ring
      omega
    rw [ih k acc (v / 10) _ (by omega) (by omega) hdivlt]
    have hcond : isDigitC (Char.ofNat ('0'.toNat + (v % 10).toNat)) = true :=
      isDigitC_ofNat _ (by omega)
    simp only [readFraction7, hcond, true_and]
    rw [if_pos (by omega)]
    have e : ((Char.ofNat ('0'.toNat + (v % 10).toNat)).toNat : Int) = 48 + ((v % 10).toNat : Int) := by
      rw [toNat_ofNat_digit _ (by omega)]
    have e2 : ((v % 10).toNat : Int) = v % 10 := Int.toNat_of_nonneg (by omega)
    have harg : (acc * 10 ^ n + v / 10) * 10 +
        (((Char.ofNat ('0'.toNat + (v % 10).toNat)).toNat : Int) - 48)
        = acc * 10 ^ (n + 1) + v := by
      rw [e, e2]
      have hpow : acc * 10 ^ (n + 1) = acc * 10 ^ n * 10 := by ring
      omega
    rw [harg]
    have hk2 : k + n + 1 = k + (n + 1) := by omega
    rw [hk2]

theorem tryParseFastPath_precise (y m d h mi s frac : Int)
    (hvd : isValidDate y m d = true) (hvt : isValidTime h mi s 0 = true)
    (hf0 : 0 ≤ frac) (hf1 : frac < 10 ^ 7) :
    tryParseFastPath (appendIso8601DateTime y m d h mi s ++
        ('.' :: padDigits 7 frac) ++ ['Z'])
      = some (dateToTicks y m d + timeToTicks h mi s 0 + frac) := by
  have hy := (isValidDate_iff y m d).mp hvd
  have ht := (isValidTime_iff h mi s 0).mp hvt
  have hdim := daysInMonth_bounds y m
  have e1 : isDigitC (Char.ofNat ('0'.toNat + (y / 1000).toNat)) = true :=
    isDigitC_ofNat _ (by omega)
  have e2 : isDigitC (Char.ofNat ('0'.toNat + (y / 100 % 10).toNat)) = true :=
    isDigitC_ofNat _ (by omega)
  have e3 : isDigitC (Char.ofNat ('0'.toNat + (y / 10 % 10).toNat)) = true :=
    isDigitC_ofNat _ (by omega)
  have e4 : isDigitC (Char.ofNat ('0'.toNat + (y % 10).toNat)) = true :=
    isDigitC_ofNat _ (by omega)
  have e5 : isDigitC (Char.ofNat ('0'.toNat + (m / 10).toNat)) = true :=
    isDigitC_ofNat _ (by omega)
  have e6 : isDigitC (Char.ofNat ('0'.toNat + (m % 10).toNat)) = true :=
    isDigitC_ofNat _ (by omega)
  have e7 : isDigitC (Char.ofNat ('0'.toNat + (d / 10).toNat)) = true :=
    isDigitC_ofNat _ (by omega)
  have e8 : isDigitC (Char.ofNat ('0'.toNat + (d % 10).toNat)) = true :=
    isDigitC_ofNat _ (by omega)
  have e9 : isDigitC (Char.ofNat ('0'.toNat + (h / 10).toNat)) = true :=
    isDigitC_ofNat _ (by omega)
  have e10 : isDigitC (Char.ofNat ('0'.toNat + (h % 10).toNat)) = true :=
    isDigitC_ofNat _ (by omega)
  have e11 : isDigitC (Char.ofNat ('0'.toNat + (mi / 10).toNat)) = true :=
    isDigitC_ofNat _ (by omega)
  have e12 : isDigitC (Char.ofNat ('0'.toNat + (mi % 10).toNat)) = true :=
    isDigitC_ofNat _ (by omega)
  have e13 : isDigitC (Char.ofNat ('0'.toNat + (s / 10).toNat)) = true :=
    isDigitC_ofNat _ (by omega)
  have e14 : isDigitC (Char.ofNat ('0'.toNat + (s % 10).toNat)) = true :=
    isDigitC_ofNat _ (by omega)
  have p1 := parse4_appendFour y (by omega) (by omega)
  have p2 := parse2_appendTwo m (by omega) (by omega)
  have p3 := parse2_appendTwo d (by omega) (by omega)
  have p4 := parse2_appendTwo h (by omega) (by omega)
  have p5 := parse2_appendTwo mi (by omega) (by omega)
  have p6 := parse2_appendTwo s (by omega) (by omega)
  simp only [appendIso8601DateTime, appendIso8601Date, appendIso8601Time, appendFourDigits,
    appendTwoDigits, List.cons_append, List.nil_append, List.append_assoc]
  simp only [tryParseFastPath, e1, e2, e3, e4, e5, e6, e7, e8, e9, e10, e11, e12, e13, e14,
    p1, p2, p3, p4, p5, p6, hvd, hvt, if_true, and_true, true_and, and_self, ite_true]
  simp only [fastAfterSeconds]
  rw [readFraction7_pad 7 0 0 frac (['Z']) (by omega) hf0 hf1]
  rw [readFraction7_stop]
  norm_num
  have hz : isDigitC 'Z' = false := by decide
  simp [List.dropWhile, hz, padFractionTo7]

theorem padDigits_length (n : Nat) : ∀ v : Int, (padDigits n v).length = n := by
  induction n with
  | zero => intro v; rfl
  | succ k ih => intro v; simp [padDigits, ih]

theorem toString_precise_eq (t : Int) :
    DateTime.toString (DateTime.ofTicks t) Format.Iso8601Precise
      = appendIso8601DateTime (dateComponentsFromTicks t).1 (dateComponentsFromTicks t).2.1
          (dateComponentsFromTicks t).2.2 (timeComponentsFromTicks t).1
          (timeComponentsFromTicks t).2.1 (timeComponentsFromTicks t).2.2.1 ++
        ('.' :: padDigits 7 (t % TICKS_PER_SECOND)) ++ ['Z'] := by
  rfl

theorem fromString_precise_len (y m d h mi s : Int) (frac : Int) :
    (appendIso8601DateTime y m d h mi s ++ ('.' :: padDigits 7 frac) ++ ['Z']).length
      = 28 := by
  simp [appendIso8601DateTime, appendIso8601Date, appendIso8601Time, appendFourDigits,
    appendTwoDigits, padDigits_length]

/-- Claim C2: formatting any in-range tick value with the precise dialect and
re-parsing with DateTime::fromString restores the tick value exactly; and the
concrete string 2024-01-15T10:30:00.1234567Z parses to a tick value with
fractional-second remainder 1234567 whose precise formatting reproduces the
identical string. -/
theorem c2_precise_roundtrip :
    (∀ t : Int, MIN_DATETIME_TICKS ≤ t → t ≤ MAX_DATETIME_TICKS →
      DateTime.fromString (DateTime.toString (DateTime.ofTicks t) Format.Iso8601Precise)
        = some (DateTime.ofTicks t)) ∧
      DateTime.fromString exPrecise2024 = some (DateTime.ofTicks 638409114001234567) ∧
      (638409114001234567 : Int) % TICKS_PER_SECOND = 1234567 ∧
      DateTime.toString (DateTime.ofTicks 638409114001234567) Format.Iso8601Precise
        = exPrecise2024 := by
  refine ⟨?_, by decide, by decide, by decide⟩
  intro t h0 h1
  rw [MIN_DATETIME_TICKS] at h0
  obtain ⟨y, m, d, hdc, hvd, hdt⟩ := dateComponentsFromTicks_spec t h0 h1
  have htc := timeComponentsFromTicks_spec t h0
  rw [toString_precise_eq, hdc]
  have hvt : isValidTime (timeComponentsFromTicks t).1 (timeComponentsFromTicks t).2.1
      (timeComponentsFromTicks t).2.2.1 0 = true := by
    rw [isValidTime_iff]
    exact ⟨htc.1, htc.2.1, htc.2.2.1, htc.2.2.2.1, htc.2.2.2.2.1, htc.2.2.2.2.2.1,
      le_refl 0, by omega⟩
  have hfr0 : 0 ≤ t % TICKS_PER_SECOND := by
    rw [TICKS_PER_SECOND]
    omega
  have hfr1 : t % TICKS_PER_SECOND < 10 ^ 7 := by
    rw [TICKS_PER_SECOND]
    omega
  have hparse := tryParseFastPath_precise y m d (timeComponentsFromTicks t).1
    (timeComponentsFromTicks t).2.1 (timeComponentsFromTicks t).2.2.1
    (t % TICKS_PER_SECOND) hvd hvt hfr0 hfr1
  unfold DateTime.fromString
  rw [if_neg (by rw [fromString_precise_len]; omega), hparse]
  have hsum : dateToTicks y m d +
      timeToTicks (timeComponentsFromTicks t).1 (timeComponentsFromTicks t).2.1
        (timeComponentsFromTicks t).2.2.1 0 + t % TICKS_PER_SECOND = t := by
    have h2 := htc.2.2.2.2.2.2
    have hmoddiv : t / TICKS_PER_DAY * TICKS_PER_DAY + t % TICKS_PER_DAY = t := by
      rw [TICKS_PER_DAY]
      omega
    omega
  rw [hsum]
  rfl

/-- Witness for the universal part of C2 at the concrete tick value of
2024-01-15T10:30:00.1234567. -/
theorem c2_precise_roundtrip_witness :
    (MIN_DATETIME_TICKS ≤ (638409114001234567 : Int) ∧
        (638409114001234567 : Int) ≤ MAX_DATETIME_TICKS) ∧
      DateTime.fromString
          (DateTime.toString (DateTime.ofTicks 638409114001234567) Format.Iso8601Precise)
        = some (DateTime.ofTicks 638409114001234567) :=
  ⟨⟨by decide, by decide⟩,
    c2_precise_roundtrip.1 638409114001234567 (by decide) (by decide)⟩

/-- Claim C10: DateTimeOffset::fromString accepts an input with no zone
suffix at all; parsing succeeds and the resulting offset is zero. -/
theorem c10_no_zone_suffix_defaults_to_zero :
    DateTimeOffset.fromString exNoZone
        = some ⟨⟨638409114000000000⟩, ⟨0⟩⟩ ∧
      (DateTimeOffset.fromString exNoZone).map (fun r => r.m_offset.ticks) = some 0 := by
  constructor
  · decide
  · decide

/-- Counterexample to claim C6: on a datetime string whose fractional field
has 8 digits, the flexible (fallback) parser does not fail: it returns a
value (reading the first 7 digits and ignoring the 8th). -/
theorem c6_counterexample :
    fromStringFallback exFrac8 = some 638409114001234567 := by
  decide

theorem normMonthUp_spec (fuel : Nat) : ∀ (m y : Int), 1 ≤ m → m ≤ 12 + 12 * fuel →
    normMonthUp fuel m y = ((m - 1) % 12 + 1, y + (m - 1) / 12) := by
  induction fuel with
  | zero =>
    intro m y h1 h2
    simp only [normMonthUp, Prod.mk.injEq]
    omega
  | succ n ih =>
    intro m y h1 h2
    simp only [normMonthUp]
    by_cases hc : m > 12
    · rw [if_pos hc, ih (m - 12) (y + 1) (by omega) (by omega)]
      simp only [Prod.mk.injEq]
      omega
    · rw [if_neg hc]
      simp only [Prod.mk.injEq]
      omega

theorem normMonthDown_spec (fuel : Nat) : ∀ (m y : Int), m ≤ 12 → 1 - 12 * fuel ≤ m →
    normMonthDown fuel m y = ((m - 1) % 12 + 1, y + (m - 1) / 12) := by
  induction fuel with
  | zero =>
    intro m y h1 h2
    simp only [normMonthDown, Prod.mk.injEq]
    omega
  | succ n ih =>
    intro m y h1 h2
    simp only [normMonthDown]
    by_cases hc : m < 1
    · rw [if_pos hc, ih (m + 12) (y - 1) (by omega) (by omega)]
      simp only [Prod.mk.injEq]
      omega
    · rw [if_neg hc]
      simp only [Prod.mk.injEq]
      omega

theorem normMonth_combined (fuel : Nat) (m y : Int)
    (hf1 : m ≤ 12 + 12 * fuel) (hf2 : 1 - 12 * fuel ≤ m) :
    normMonthDown fuel (normMonthUp fuel m y).1 (normMonthUp fuel m y).2
      = ((m - 1) % 12 + 1, y + (m - 1) / 12) := by
  by_cases hm : 1 ≤ m
  · rw [normMonthUp_spec fuel m y hm hf1]
    have h1 : (m - 1) % 12 + 1 ≤ 12 := by omega
    have h2 : 1 ≤ (m - 1) % 12 + 1 := by omega
    rw [normMonthDown_spec fuel _ _ h1 (by omega)]
    simp only [Prod.mk.injEq]
    omega
  · have hup : normMonthUp fuel m y = (m, y) := by
      cases fuel with
      | zero => rfl
      | succ n => simp only [normMonthUp]; rw [if_neg (by omega)]
    rw [hup]
    exact normMonthDown_spec fuel m y (by omega) hf2

theorem ofYMDHMSms_ticks (y m d h mi s ms : Int) (hvd : isValidDate y m d = true)
    (hvt : isValidTime h mi s ms = true) :
    (DateTime.ofYMDHMSms y m d h mi s ms).m_ticks
      = dateToTicks y m d + timeToTicks h mi s ms := by
  rw [DateTime.ofYMDHMSms, if_neg]
  simp [hvd, hvt]

theorem timeToTicks_range (h mi s ms : Int) (hvt : isValidTime h mi s ms = true) :
    0 ≤ timeToTicks h mi s ms ∧ timeToTicks h mi s ms < TICKS_PER_DAY := by
  rw [isValidTime_iff] at hvt
  simp only [timeToTicks, TICKS_PER_HOUR, TICKS_PER_MINUTE, TICKS_PER_SECOND,
    TICKS_PER_MILLISECOND, TICKS_PER_DAY]
  omega

theorem dateToTicks_mod (y m d T : Int) (hT0 : 0 ≤ T) (hT1 : T < TICKS_PER_DAY) :
    (dateToTicks y m d + T) % TICKS_PER_DAY = T := by
  simp only [dateToTicks, TICKS_PER_DAY] at *
  omega

theorem c8_addMonths_calendar :
    (∀ (y m d h mi s ms off n : Int),
      isValidDate y m d = true → isValidTime h mi s ms = true →
      1 ≤ y + (m + n - 1) / 12 → y + (m + n - 1) / 12 ≤ 9999 →
      DateTimeOffset.addMonths ⟨DateTime.ofYMDHMSms y m d h mi s ms, ⟨off⟩⟩ n
        = ⟨⟨dateToTicks (y + (m + n - 1) / 12) ((m + n - 1) % 12 + 1)
              (min d (daysInMonth (y + (m + n - 1) / 12) ((m + n - 1) % 12 + 1)))
            + timeToTicks h mi s ms⟩, ⟨off⟩⟩) ∧
      DateTimeOffset.addMonths ⟨DateTime.ofYMD 2024 1 31, ⟨0⟩⟩ 1
        = ⟨DateTime.ofYMD 2024 2 29, ⟨0⟩⟩ ∧
      DateTimeOffset.addMonths ⟨DateTime.ofYMD 2024 1 31, ⟨0⟩⟩ 13
        = ⟨DateTime.ofYMD 2025 2 28, ⟨0⟩⟩ ∧
      (∀ (dto : DateTimeOffset) (years : Int),
        dto.addYears years = dto.addMonths (12 * years)) := by
  refine ⟨?_, by decide, by decide, ?_⟩
  · intro y m d h mi s ms off n hvd hvt hy1 hy2
    have hvy := (isValidDate_iff y m d).mp hvd
    have hvti := (isValidTime_iff h mi s ms).mp hvt
    have hT := timeToTicks_range h mi s ms hvt
    have htick := ofYMDHMSms_ticks y m d h mi s ms hvd hvt
    have hdc : dateComponentsFromTicks (DateTime.ofYMDHMSms y m d h mi s ms).m_ticks
        = (y, m, d) := by
      rw [htick]
      exact dateComponentsFromTicks_of_valid y m d _ hvd hT.1 hT.2
    simp only [DateTimeOffset.addMonths, DateTime.year, DateTime.month, DateTime.day,
      DateTime.timeOfDay, hdc]
    rw [htick, dateToTicks_mod y m d _ hT.1 hT.2]
    rw [normMonth_combined _ (m + n) y (by omega) (by omega)]
    have hM2 : 1 ≤ (m + n - 1) % 12 + 1 ∧ (m + n - 1) % 12 + 1 ≤ 12 := by omega
    have hdimt := daysInMonth_bounds (y + (m + n - 1) / 12) ((m + n - 1) % 12 + 1)
    have hvd2 : isValidDate (y + (m + n - 1) / 12) ((m + n - 1) % 12 + 1)
        (min d (daysInMonth (y + (m + n - 1) / 12) ((m + n - 1) % 12 + 1))) = true := by
      rw [isValidDate_iff]
      refine ⟨hy1, hy2, hM2.1, hM2.2, ?_, ?_⟩
      · omega
      · omega
    simp only [DateTime.ofYMD, hvd2]
    rw [if_neg (by simp [hvd2])]
    rfl
  · intro dto years
    rw [DateTimeOffset.addYears, Int.mul_comm]

/-- Witness for the general clause of C8: 2024-01-31 plus one month. -/
theorem c8_addMonths_calendar_witness :
    (isValidDate 2024 1 31 = true ∧ isValidTime 0 0 0 0 = true ∧
        (1 : Int) ≤ 2024 + (1 + 1 - 1) / 12 ∧ 2024 + (1 + 1 - 1) / 12 ≤ 9999) ∧
      DateTimeOffset.addMonths ⟨DateTime.ofYMDHMSms 2024 1 31 0 0 0 0, ⟨0⟩⟩ 1
        = ⟨⟨dateToTicks (2024 + (1 + 1 - 1) / 12) ((1 + 1 - 1) % 12 + 1)
              (min 31 (daysInMonth (2024 + (1 + 1 - 1) / 12) ((1 + 1 - 1) % 12 + 1)))
            + timeToTicks 0 0 0 0⟩, ⟨0⟩⟩ :=
  ⟨⟨by decide, by decide, by decide, by decide⟩,
    c8_addMonths_calendar.1 2024 1 31 0 0 0 0 0 1 (by decide) (by decide) (by decide)
      (by decide)⟩

theorem digitByte_ne_Z (c : Char) (h : isDigitByte c) : c ≠ 'Z' := by
  obtain ⟨k, hk, rfl⟩ := h
  interval_cases k <;> decide

theorem mem_appendTwoDigits (c : Char) (v : Int) (h0 : 0 ≤ v) (h1 : v ≤ 99)
    (hc : c ∈ appendTwoDigits v) : isDigitByte c := by
  simp only [appendTwoDigits, List.mem_cons, List.mem_singleton, List.not_mem_nil] at hc
  rcases hc with rfl | rfl | hfalse
  · exact ⟨(v / 10).toNat, by omega, rfl⟩
  · exact ⟨(v % 10).toNat, by omega, rfl⟩
  · cases hfalse

theorem mem_appendFourDigits (c : Char) (v : Int) (h0 : 0 ≤ v) (h1 : v ≤ 9999)
    (hc : c ∈ appendFourDigits v) : isDigitByte c := by
  simp only [appendFourDigits, List.mem_cons, List.not_mem_nil] at hc
  rcases hc with rfl | rfl | rfl | rfl | hfalse
  · exact ⟨(v / 1000).toNat, by omega, rfl⟩
  · exact ⟨(v / 100 % 10).toNat, by omega, rfl⟩
  · exact ⟨(v / 10 % 10).toNat, by omega, rfl⟩
  · exact ⟨(v % 10).toNat, by omega, rfl⟩
  · cases hfalse

theorem mem_padDigits (c : Char) (n : Nat) : ∀ v : Int, c ∈ padDigits n v → isDigitByte c := by
  induction n with
  | zero => intro v hc; cases hc
  | succ k ih =>
    intro v hc
    simp only [padDigits, List.mem_append, List.mem_singleton] at hc
    rcases hc with hc | rfl
    · exact ih _ hc
    · exact ⟨(v % 10).toNat, by omega, rfl⟩

theorem mem_natDigits (c : Char) : ∀ n : Nat, c ∈ natDigits n → isDigitByte c := by
  intro n
  induction n using Nat.strong_induction_on with
  | _ n ih =>
    intro hc
    rw [natDigits] at hc
    split_ifs at hc with h10
    · simp only [List.mem_singleton] at hc
      exact ⟨n, by omega, hc⟩
    · simp only [List.mem_append, List.mem_singleton] at hc
      rcases hc with hc | rfl
      · exact ih (n / 10) (Nat.div_lt_self (by omega) (by omega)) hc
      · exact ⟨n % 10, by omega, rfl⟩

theorem Z_notin_intToString (v : Int) : 'Z' ∉ intToString v := by
  intro hc
  unfold intToString at hc
  split_ifs at hc with hv
  · simp only [List.mem_cons] at hc
    rcases hc with hz | hc
    · exact absurd hz.symm (by decide)
    · exact digitByte_ne_Z _ (mem_natDigits _ _ hc) rfl
  · exact digitByte_ne_Z _ (mem_natDigits _ _ hc) rfl

theorem mem_trimZeros (c : Char) (l : List Char) (hc : c ∈ trimZeros l) : c ∈ l := by
  simp only [trimZeros] at hc
  split_ifs at hc with he
  · exact List.mem_of_mem_take hc
  · have : c ∈ (l.reverse.dropWhile fun x => x == '0').reverse := hc
    rw [List.mem_reverse] at this
    have := List.dropWhile_sublist (l := l.reverse) (p := fun x => x == '0') |>.mem this
    rwa [List.mem_reverse] at this

theorem dateComponents_bounds (t : Int) (h0 : 0 ≤ t) (h1 : t ≤ MAX_DATETIME_TICKS) :
    1 ≤ (dateComponentsFromTicks t).1 ∧ (dateComponentsFromTicks t).1 ≤ 9999 ∧
      1 ≤ (dateComponentsFromTicks t).2.1 ∧ (dateComponentsFromTicks t).2.1 ≤ 12 ∧
      1 ≤ (dateComponentsFromTicks t).2.2 ∧ (dateComponentsFromTicks t).2.2 ≤ 31 := by
  obtain ⟨y, m, d, heq, hval, _⟩ := dateComponentsFromTicks_spec t h0 h1
  rw [heq]
  dsimp only
  rw [isValidDate_iff] at hval
  have := daysInMonth_bounds y m
  refine ⟨by omega, by omega, by omega, by omega, by omega, by omega⟩

theorem totalOffsetMinutes_abs_le (dto : DateTimeOffset)
    (h : isValidOffset dto.m_offset = true) : dto.totalOffsetMinutes.natAbs ≤ 1440 := by
  simp only [isValidOffset, HOURS_PER_DAY, SECONDS_PER_HOUR, TICKS_PER_SECOND,
    Bool.and_eq_true, decide_eq_true_eq] at h
  unfold DateTimeOffset.totalOffsetMinutes TICKS_PER_MINUTE
  rcases le_or_lt 0 dto.m_offset.ticks with hpos | hneg
  · rw [Int.tdiv_eq_ediv hpos (by omega)]
    omega
  · have hneg' : dto.m_offset.ticks.tdiv 600000000
        = -((- dto.m_offset.ticks).tdiv 600000000) := by
      rw [Int.neg_tdiv]
      ring
    rw [hneg', Int.tdiv_eq_ediv (by omega) (by omega)]
    have : (- dto.m_offset.ticks) / 600000000 ≤ 1440 := by omega
    have h2 : 0 ≤ (- dto.m_offset.ticks) / 600000000 := by omega
    omega

theorem Z_notin_appendOffset (mins : Int) (h : mins.natAbs ≤ 5999) :
    'Z' ∉ appendOffset mins := by
  intro hc
  simp only [appendOffset, MINUTES_PER_HOUR] at hc
  rcases List.mem_cons.mp hc with hz | hc2
  · revert hz
    split_ifs <;> decide
  · rcases List.mem_append.mp hc2 with hc3 | hB
    · rcases List.mem_append.mp hc3 with hA | hcolon
      · have hb : (0 : Int) ≤ (mins.natAbs : Int) / 60 ∧ ((mins.natAbs : Int)) / 60 ≤ 99 := by
          omega
        exact digitByte_ne_Z _ (mem_appendTwoDigits _ _ hb.1 hb.2 hA) rfl
      · simp only [List.mem_singleton] at hcolon
        exact absurd hcolon (by decide)
    · have hb : (0 : Int) ≤ (mins.natAbs : Int) % 60 ∧ ((mins.natAbs : Int)) % 60 ≤ 99 := by
        omega
      exact digitByte_ne_Z _ (mem_appendTwoDigits _ _ hb.1 hb.2 hB) rfl

theorem notin_append {α : Type} {a : α} {l1 l2 : List α} (h1 : a ∉ l1) (h2 : a ∉ l2) :
    a ∉ l1 ++ l2 := by
  intro hc
  rcases List.mem_append.mp hc with h | h
  · exact h1 h
  · exact h2 h

theorem notZ_two (v : Int) (h0 : 0 ≤ v) (h1 : v ≤ 99) : 'Z' ∉ appendTwoDigits v :=
  fun hc => digitByte_ne_Z _ (mem_appendTwoDigits _ _ h0 h1 hc) rfl

theorem notZ_four (v : Int) (h0 : 0 ≤ v) (h1 : v ≤ 9999) : 'Z' ∉ appendFourDigits v :=
  fun hc => digitByte_ne_Z _ (mem_appendFourDigits _ _ h0 h1 hc) rfl

theorem notZ_pad (n : Nat) (v : Int) : 'Z' ∉ padDigits n v :=
  fun hc => digitByte_ne_Z _ (mem_padDigits _ _ _ hc) rfl

theorem notZ_fracSeconds (v : Int) (bufferSize : Nat) :
    'Z' ∉ appendFractionalSeconds v bufferSize := by
  intro hc
  rcases List.mem_cons.mp hc with h | h
  · exact absurd h (by decide)
  · exact notZ_pad _ _ h

theorem notZ_fracTrimmed (v : Int) : 'Z' ∉ appendFractionalSecondsTrimmed v := by
  intro hc
  unfold appendFractionalSecondsTrimmed at hc
  split_ifs at hc
  · rcases List.mem_cons.mp hc with h | h
    · exact absurd h (by decide)
    · exact notZ_pad 7 _ (mem_trimZeros _ _ h)
  · rcases List.mem_cons.mp hc with h | h
    · exact absurd h (by decide)
    · rcases List.mem_cons.mp h with h2 | h2
      · exact absurd h2 (by decide)
      · cases h2

theorem dto_valid_bounds (dto : DateTimeOffset) (hval : dto.isValid = true) :
    0 ≤ dto.m_dateTime.m_ticks ∧ dto.m_dateTime.m_ticks ≤ MAX_DATETIME_TICKS ∧
      isValidOffset dto.m_offset = true := by
  simp only [DateTimeOffset.isValid, DateTime.isValid, MIN_DATETIME_TICKS,
    Bool.and_eq_true, decide_eq_true_eq] at hval
  exact ⟨hval.1.1, hval.1.2, hval.2⟩

theorem Z_notin_formatIso8601WithOffset (dto : DateTimeOffset) (fmt : Format)
    (hval : dto.isValid = true) : 'Z' ∉ formatIso8601WithOffset dto fmt := by
  obtain ⟨ht0, ht1, hoffv⟩ := dto_valid_bounds dto hval
  have hdb := dateComponents_bounds dto.m_dateTime.m_ticks ht0 ht1
  have htb := timeComponentsFromTicks_spec dto.m_dateTime.m_ticks ht0
  have hoff := totalOffsetMinutes_abs_le dto hoffv
  unfold formatIso8601WithOffset
  simp only [DateTimeOffset.year, DateTimeOffset.month, DateTimeOffset.day,
    DateTimeOffset.hour, DateTimeOffset.minute, DateTimeOffset.second, DateTime.year,
    DateTime.month, DateTime.day, DateTime.hour, DateTime.minute, DateTime.second]
  refine notin_append (notin_append (notin_append (notin_append (notin_append
    (notin_append (notin_append (notin_append (notin_append (notin_append
    (notin_append (notin_append (notZ_four _ (by omega) (by omega)) (by decide))
    (notZ_two _ (by omega) (by omega))) (by decide)) (notZ_two _ (by omega) (by omega)))
    (by decide)) (notZ_two _ (by omega) (by omega))) (by decide))
    (notZ_two _ (by omega) (by omega))) (by decide)) (notZ_two _ (by omega) (by omega)))
    ?_) (Z_notin_appendOffset _ (by omega))
  split_ifs
  · exact notZ_fracSeconds _ _
  · exact notZ_fracTrimmed _
  · exact notZ_fracSeconds _ _
  · exact notZ_fracSeconds _ _
  · intro hc
    cases hc

theorem Z_notin_formatIso8601BasicOffset (dto : DateTimeOffset)
    (hval : dto.isValid = true) : 'Z' ∉ formatIso8601BasicOffset dto := by
  obtain ⟨ht0, ht1, hoffv⟩ := dto_valid_bounds dto hval
  have hdb := dateComponents_bounds dto.m_dateTime.m_ticks ht0 ht1
  have htb := timeComponentsFromTicks_spec dto.m_dateTime.m_ticks ht0
  have hoff := totalOffsetMinutes_abs_le dto hoffv
  unfold formatIso8601BasicOffset
  simp only [DateTimeOffset.year, DateTimeOffset.month, DateTimeOffset.day,
    DateTimeOffset.hour, DateTimeOffset.minute, DateTimeOffset.second, DateTime.year,
    DateTime.month, DateTime.day, DateTime.hour, DateTime.minute, DateTime.second]
  refine notin_append (notin_append (notin_append (notin_append (notin_append
    (notin_append (notin_append (notZ_four _ (by omega) (by omega))
    (notZ_two _ (by omega) (by omega))) (notZ_two _ (by omega) (by omega))) (by decide))
    (notZ_two _ (by omega) (by omega))) (notZ_two _ (by omega) (by omega)))
    (notZ_two _ (by omega) (by omega))) ?_
  intro hB
  rcases List.mem_cons.mp hB with hz | hc2
  · revert hz
    split_ifs <;> decide
  · rcases List.mem_append.mp hc2 with hA2 | hB2
    · exact notZ_two _ (by simp only [MINUTES_PER_HOUR]; omega)
        (by simp only [MINUTES_PER_HOUR]; omega) hA2
    · exact notZ_two _ (by simp only [MINUTES_PER_HOUR]; omega)
        (by simp only [MINUTES_PER_HOUR]; omega) hB2

theorem Z_notin_formatDateOnly (dto : DateTimeOffset) (hval : dto.isValid = true) :
    'Z' ∉ formatDateOnly dto := by
  obtain ⟨ht0, ht1, _⟩ := dto_valid_bounds dto hval
  have hdb := dateComponents_bounds dto.m_dateTime.m_ticks ht0 ht1
  unfold formatDateOnly
  simp only [DateTimeOffset.year, DateTimeOffset.month, DateTimeOffset.day, DateTime.year,
    DateTime.month, DateTime.day]
  exact notin_append (notin_append (notin_append (notin_append
    (notZ_four _ (by omega) (by omega)) (by decide)) (notZ_two _ (by omega) (by omega)))
    (by decide)) (notZ_two _ (by omega) (by omega))

theorem Z_notin_formatTimeOnly (dto : DateTimeOffset) (hval : dto.isValid = true) :
    'Z' ∉ formatTimeOnly dto := by
  obtain ⟨ht0, ht1, hoffv⟩ := dto_valid_bounds dto hval
  have htb := timeComponentsFromTicks_spec dto.m_dateTime.m_ticks ht0
  have hoff := totalOffsetMinutes_abs_le dto hoffv
  unfold formatTimeOnly
  simp only [DateTimeOffset.hour, DateTimeOffset.minute, DateTimeOffset.second,
    DateTime.hour, DateTime.minute, DateTime.second]
  exact notin_append (notin_append (notin_append (notin_append (notin_append
    (notZ_two _ (by omega) (by omega)) (by decide)) (notZ_two _ (by omega) (by omega)))
    (by decide)) (notZ_two _ (by omega) (by omega))) (Z_notin_appendOffset _ (by omega))

theorem Z_notin_toStringOffset (dto : DateTimeOffset) (fmt : Format)
    (hval : dto.isValid = true) : 'Z' ∉ dto.toString fmt := by
  cases fmt
  case Iso8601 => exact Z_notin_formatIso8601WithOffset dto _ hval
  case Iso8601Precise => exact Z_notin_formatIso8601WithOffset dto _ hval
  case Iso8601PreciseTrimmed => exact Z_notin_formatIso8601WithOffset dto _ hval
  case Iso8601Millis => exact Z_notin_formatIso8601WithOffset dto _ hval
  case Iso8601Micros => exact Z_notin_formatIso8601WithOffset dto _ hval
  case Iso8601Extended => exact Z_notin_formatIso8601WithOffset dto _ hval
  case Iso8601Basic => exact Z_notin_formatIso8601BasicOffset dto hval
  case Iso8601Date => exact Z_notin_formatDateOnly dto hval
  case Iso8601Time => exact Z_notin_formatTimeOnly dto hval
  case UnixSeconds => exact Z_notin_intToString _
  case UnixMilliseconds => exact Z_notin_intToString _

/-- Counterexample to claim C9: with the date-only dialect, toString of the
zone-aware type appends no offset suffix at all; the formatted string does
not end with the value's ±HH:MM offset. -/
theorem c9_counterexample :
    List.isSuffixOf
        (appendOffset
          (DateTimeOffset.totalOffsetMinutes ⟨⟨638409114001234567⟩, ⟨54000000000⟩⟩))
        (DateTimeOffset.toString ⟨⟨638409114001234567⟩, ⟨54000000000⟩⟩ Format.Iso8601Date)
      = false := by
  decide

/-- Claim C9 as amended: DateTimeOffset::toString appends an explicit ±HH:MM
offset suffix for the seven dialects that carry a time and an offset
(Iso8601, Precise, PreciseTrimmed, Millis, Micros, Extended, Time-only); the
Basic dialect appends a compact ±HHMM offset instead; the date-only and the
two numeric Unix dialects append no offset; a zero offset renders as +00:00
and the character Z is never emitted for any dialect on a valid value. -/
theorem c9_amended_offset_suffix :
    (∀ (dto : DateTimeOffset) (fmt : Format),
      fmt = Format.Iso8601 ∨ fmt = Format.Iso8601Precise ∨
        fmt = Format.Iso8601PreciseTrimmed ∨ fmt = Format.Iso8601Millis ∨
        fmt = Format.Iso8601Micros ∨ fmt = Format.Iso8601Extended ∨
        fmt = Format.Iso8601Time →
      ∃ body, dto.toString fmt = body ++ appendOffset dto.totalOffsetMinutes) ∧
      (∀ dto : DateTimeOffset, ∃ body,
        dto.toString Format.Iso8601Basic = body ++
          ((if dto.totalOffsetMinutes ≥ 0 then '+' else '-') ::
            (appendTwoDigits ((dto.totalOffsetMinutes.natAbs : Int) / MINUTES_PER_HOUR) ++
              appendTwoDigits ((dto.totalOffsetMinutes.natAbs : Int) % MINUTES_PER_HOUR)))) ∧
      appendOffset 0 = ['+', '0', '0', ':', '0', '0'] ∧
      (∀ (dto : DateTimeOffset) (fmt : Format), dto.isValid = true →
        'Z' ∉ dto.toString fmt) := by
  refine ⟨?_, ?_, by decide, Z_notin_toStringOffset⟩
  · intro dto fmt hf
    rcases hf with rfl | rfl | rfl | rfl | rfl | rfl | rfl <;> exact ⟨_, rfl⟩
  · intro dto
    exact ⟨_, rfl⟩

/-- Witness for the amended C9 at a value with offset +01:30. -/
theorem c9_amended_offset_suffix_witness :
    (∃ body,
      DateTimeOffset.toString ⟨⟨638409114001234567⟩, ⟨54000000000⟩⟩ Format.Iso8601
        = body ++ appendOffset
            (DateTimeOffset.totalOffsetMinutes ⟨⟨638409114001234567⟩, ⟨54000000000⟩⟩)) ∧
      DateTimeOffset.isValid ⟨⟨638409114001234567⟩, ⟨54000000000⟩⟩ = true ∧
      'Z' ∉ DateTimeOffset.toString ⟨⟨638409114001234567⟩, ⟨54000000000⟩⟩ Format.Iso8601 :=
  ⟨c9_amended_offset_suffix.1 ⟨⟨638409114001234567⟩, ⟨54000000000⟩⟩ Format.Iso8601
      (Or.inl rfl),
    by decide,
    c9_amended_offset_suffix.2.2.2 ⟨⟨638409114001234567⟩, ⟨54000000000⟩⟩ Format.Iso8601
      (by decide)⟩

/-! ### Claim C7: zone-offset suffix range -/

theorem isDigitC_toNat (c : Char) (h : isDigitC c = true) :
    48 ≤ c.toNat ∧ c.toNat ≤ 57 := by
  simp only [isDigitC, Bool.and_eq_true, decide_eq_true_eq] at h
  obtain ⟨h1, h2⟩ := h
  rw [Char.le_def] at h1 h2
  constructor
  · exact h1
  · exact h2

theorem digit_ne_char (c e : Char) (h : isDigitC c = true)
    (he : e.toNat < 48 ∨ 57 < e.toNat) : (c == e) = false := by
  have hb := isDigitC_toNat c h
  rw [beq_eq_false_iff_ne]
  intro hc
  subst hc
  omega

theorem readDigitsRun_stop (l : List Char) (acc n : Nat)
    (hstop : isDigitC (l.headD 'T') = false) : readDigitsRun l acc n = (acc, n, l) := by
  cases l with
  | nil => rfl
  | cons c cs =>
    simp only [List.headD] at hstop
    simp [readDigitsRun, hstop]

theorem readDigitsRun_two (c1 c2 : Char) (rest : List Char) (acc n : Nat)
    (h1 : isDigitC c1 = true) (h2 : isDigitC c2 = true)
    (hstop : isDigitC (rest.headD 'T') = false) :
    readDigitsRun (c1 :: c2 :: rest) acc n
      = ((acc * 10 + (c1.toNat - 48)) * 10 + (c2.toNat - 48), n + 2, rest) := by
  simp only [readDigitsRun, h1, h2, if_true]
  rw [readDigitsRun_stop rest _ _ hstop]

theorem readIntRun_two (c1 c2 : Char) (rest : List Char)
    (h1 : isDigitC c1 = true) (h2 : isDigitC c2 = true)
    (hstop : isDigitC (rest.headD 'T') = false) :
    readIntRun (c1 :: c2 :: rest) = some (parse2Digits c1 c2, rest) := by
  have hb1 := isDigitC_toNat c1 h1
  have hb2 := isDigitC_toNat c2 h2
  simp only [readIntRun, readDigitsRun_two c1 c2 rest 0 0 h1 h2 hstop]
  rw [if_neg (by omega), if_pos (by push_cast; omega)]
  simp only [Option.some.injEq, Prod.mk.injEq, parse2Digits]
  constructor
  · push_cast [Nat.sub_add_cancel]
    omega
  · trivial

theorem readDigitsRun_four (c1 c2 c3 c4 : Char) (rest : List Char) (acc n : Nat)
    (h1 : isDigitC c1 = true) (h2 : isDigitC c2 = true) (h3 : isDigitC c3 = true)
    (h4 : isDigitC c4 = true) (hstop : isDigitC (rest.headD 'T') = false) :
    readDigitsRun (c1 :: c2 :: c3 :: c4 :: rest) acc n
      = ((((acc * 10 + (c1.toNat - 48)) * 10 + (c2.toNat - 48)) * 10 + (c3.toNat - 48))
          * 10 + (c4.toNat - 48), n + 4, rest) := by
  simp only [readDigitsRun, h1, h2, h3, h4, if_true]
  rw [readDigitsRun_stop rest _ _ hstop]

theorem readIntRun_four (c1 c2 c3 c4 : Char) (rest : List Char)
    (h1 : isDigitC c1 = true) (h2 : isDigitC c2 = true) (h3 : isDigitC c3 = true)
    (h4 : isDigitC c4 = true) (hstop : isDigitC (rest.headD 'T') = false) :
    readIntRun (c1 :: c2 :: c3 :: c4 :: rest)
      = some (parse4Digits c1 c2 c3 c4, rest) := by
  have hb1 := isDigitC_toNat c1 h1
  have hb2 := isDigitC_toNat c2 h2
  have hb3 := isDigitC_toNat c3 h3
  have hb4 := isDigitC_toNat c4 h4
  simp only [readIntRun, readDigitsRun_four c1 c2 c3 c4 rest 0 0 h1 h2 h3 h4 hstop]
  rw [if_neg (by omega), if_pos (by push_cast; omega)]
  simp only [Option.some.injEq, Prod.mk.injEq, parse4Digits]
  constructor
  · push_cast [Nat.sub_add_cancel]
    omega
  · trivial

theorem fromCharsInt32_cons_ne (c : Char) (cs : List Char) (h : c ≠ '-') :
    fromCharsInt32 (c :: cs) = readIntRun (c :: cs) := by
  unfold fromCharsInt32
  split
  · rename_i heq
    rw [List.cons.injEq] at heq
    exact absurd heq.1 h
  · rfl

/-- The fast-path offset suffix on a two-digit hour and two-digit minute
accepts exactly the offsets up to the 14:00 ceiling. -/
theorem fastOffsetSuffix_symbolic (sgn : Char) (oh om : Int)
    (hsgn : sgn = '+' ∨ sgn = '-')
    (ho0 : 0 ≤ oh) (ho1 : oh ≤ 99) (hm0 : 0 ≤ om) (hm1 : om ≤ 99) :
    (fastOffsetSuffix (sgn :: (appendTwoDigits oh ++ ':' :: appendTwoDigits om))).isSome = true
      ↔ (oh ≤ 14 ∧ om ≤ 59 ∧ (oh = 14 → om = 0)) := by
  have e1 : isDigitC (Char.ofNat (48 + (oh / 10).toNat)) = true :=
    isDigitC_ofNat (oh / 10).toNat (by omega)
  have e2 : isDigitC (Char.ofNat (48 + (oh % 10).toNat)) = true :=
    isDigitC_ofNat (oh % 10).toNat (by omega)
  have e3 : isDigitC (Char.ofNat (48 + (om / 10).toNat)) = true :=
    isDigitC_ofNat (om / 10).toNat (by omega)
  have e4 : isDigitC (Char.ofNat (48 + (om % 10).toNat)) = true :=
    isDigitC_ofNat (om % 10).toNat (by omega)
  have p1 : parse2Digits (Char.ofNat (48 + (oh / 10).toNat))
      (Char.ofNat (48 + (oh % 10).toNat)) = oh := parse2_appendTwo oh ho0 ho1
  have p2 : parse2Digits (Char.ofNat (48 + (om / 10).toNat))
      (Char.ofNat (48 + (om % 10).toNat)) = om := parse2_appendTwo om hm0 hm1
  rcases hsgn with rfl | rfl <;>
  · simp only [appendTwoDigits, List.cons_append, List.nil_append]
    simp [fastOffsetSuffix, e1, e2, e3, e4, p1, p2]
    split_ifs with hA hB <;> simp <;> omega

/-- The flexible offset suffix on a two-digit hour, a colon and a two-digit
minute accepts exactly the offsets up to the 14:00 ceiling. -/
theorem flexOffsetSuffix_symbolic (sgn : Char) (oh om : Int)
    (hsgn : sgn = '+' ∨ sgn = '-')
    (ho0 : 0 ≤ oh) (ho1 : oh ≤ 99) (hm0 : 0 ≤ om) (hm1 : om ≤ 99) :
    (flexOffsetSuffix (sgn :: (appendTwoDigits oh ++ ':' :: appendTwoDigits om))).isSome = true
      ↔ (oh ≤ 14 ∧ om ≤ 59 ∧ (oh = 14 → om = 0)) := by
  have e1 : isDigitC (Char.ofNat (48 + (oh / 10).toNat)) = true :=
    isDigitC_ofNat (oh / 10).toNat (by omega)
  have e2 : isDigitC (Char.ofNat (48 + (oh % 10).toNat)) = true :=
    isDigitC_ofNat (oh % 10).toNat (by omega)
  have e3 : isDigitC (Char.ofNat (48 + (om / 10).toNat)) = true :=
    isDigitC_ofNat (om / 10).toNat (by omega)
  have e4 : isDigitC (Char.ofNat (48 + (om % 10).toNat)) = true :=
    isDigitC_ofNat (om % 10).toNat (by omega)
  have b1 : ((Char.ofNat (48 + (oh / 10).toNat)) == ':') = false :=
    digit_ne_char _ ':' e1 (by right; decide)
  have b2 : ((Char.ofNat (48 + (oh % 10).toNat)) == ':') = false :=
    digit_ne_char _ ':' e2 (by right; decide)
  have hne1 : (Char.ofNat (48 + (oh / 10).toNat)) ≠ '-' := by
    have := digit_ne_char _ '-' e1 (by left; decide)
    exact beq_eq_false_iff_ne.mp this
  have hne3 : (Char.ofNat (48 + (om / 10).toNat)) ≠ '-' := by
    have := digit_ne_char _ '-' e3 (by left; decide)
    exact beq_eq_false_iff_ne.mp this
  have r1 : fromCharsInt32 [Char.ofNat (48 + (oh / 10).toNat),
      Char.ofNat (48 + (oh % 10).toNat)] = some (oh, []) := by
    have p1 : parse2Digits (Char.ofNat (48 + (oh / 10).toNat))
        (Char.ofNat (48 + (oh % 10).toNat)) = oh := parse2_appendTwo oh ho0 ho1
    rw [fromCharsInt32_cons_ne _ _ hne1,
      readIntRun_two _ _ [] e1 e2 (by decide), p1]
  have r2 : fromCharsInt32 [Char.ofNat (48 + (om / 10).toNat),
      Char.ofNat (48 + (om % 10).toNat)] = some (om, []) := by
    have p2 : parse2Digits (Char.ofNat (48 + (om / 10).toNat))
        (Char.ofNat (48 + (om % 10).toNat)) = om := parse2_appendTwo om hm0 hm1
    rw [fromCharsInt32_cons_ne _ _ hne3,
      readIntRun_two _ _ [] e3 e4 (by decide), p2]
  rcases hsgn with rfl | rfl <;>
  · simp only [appendTwoDigits, List.cons_append, List.nil_append]
    simp [flexOffsetSuffix, List.findIdx?_cons, b1, b2, r1, r2]
    split_ifs with hA hB <;> simp <;> omega

/-- Claim C7: parsing a zone-offset suffix, in the fast-path offset codec
and in the flexible offset codec alike, succeeds exactly when the offset
hour is at most 14 and the offset minute is at most 59, where hour 14
permits only minute 0; the full string 2024-06-01T00:00:00+14:00 parses
successfully, while the same datetime with suffix +14:01 or +15:00 fails
to parse. -/
theorem c7_offset_suffix_range :
    (∀ (sgn : Char) (oh om : Int), sgn = '+' ∨ sgn = '-' →
        0 ≤ oh → oh ≤ 99 → 0 ≤ om → om ≤ 99 →
        ((fastOffsetSuffix
              (sgn :: (appendTwoDigits oh ++ ':' :: appendTwoDigits om))).isSome = true
            ↔ (oh ≤ 14 ∧ om ≤ 59 ∧ (oh = 14 → om = 0))) ∧
        ((flexOffsetSuffix
              (sgn :: (appendTwoDigits oh ++ ':' :: appendTwoDigits om))).isSome = true
            ↔ (oh ≤ 14 ∧ om ≤ 59 ∧ (oh = 14 → om = 0)))) ∧
    (DateTimeOffset.fromString (exOffsetBase ++ ['+','1','4',':','0','0'])).isSome = true ∧
    DateTimeOffset.fromString (exOffsetBase ++ ['+','1','4',':','0','1']) = none ∧
    DateTimeOffset.fromString (exOffsetBase ++ ['+','1','5',':','0','0']) = none := by
  refine ⟨fun sgn oh om hs h1 h2 h3 h4 =>
    ⟨fastOffsetSuffix_symbolic sgn oh om hs h1 h2 h3 h4,
      flexOffsetSuffix_symbolic sgn oh om hs h1 h2 h3 h4⟩, ?_, ?_, ?_⟩
  · decide
  · decide
  · decide

/-- Witness for C7 at hour 14, minute 0 on the fast path and hour 9,
minute 30 on the flexible path. -/
theorem c7_offset_suffix_range_witness :
    (fastOffsetSuffix ('+' :: (appendTwoDigits 14 ++ ':' :: appendTwoDigits 0))).isSome
        = true ∧
      (flexOffsetSuffix ('-' :: (appendTwoDigits 9 ++ ':' :: appendTwoDigits 30))).isSome
        = true := by
  constructor
  · exact ((c7_offset_suffix_range.1 '+' 14 0 (Or.inl rfl) (by decide) (by decide)
      (by decide) (by decide)).1).mpr (by omega)
  · exact ((c7_offset_suffix_range.1 '-' 9 30 (Or.inr rfl) (by decide) (by decide)
      (by decide) (by decide)).2).mpr (by omega)

/-! ### Claim C3: fast path refines the flexible fallback -/

theorem findIdx_false_append {α : Type} (p : α → Bool) (l1 l2 : List α)
    (h : ∀ c ∈ l1, p c = false) :
    (l1 ++ l2).findIdx? p = (l2.findIdx? p).map (fun i => i + l1.length) := by
  induction l1 with
  | nil =>
    cases hfi : l2.findIdx? p <;> simp [hfi]
  | cons a l ih =>
    have ha : p a = false := h a (List.mem_cons_self a l)
    have hl : ∀ c ∈ l, p c = false := fun c hc => h c (List.mem_cons_of_mem a hc)
    simp only [List.cons_append, List.findIdx?_cons, ha, if_false, ih hl]
    cases hfi : l2.findIdx? p with
    | none =>
      simp [hfi]
      exact hl
    | some v =>
      simp [hfi]
      exact ⟨v + l.length, Or.inr ⟨hl, rfl⟩, by omega⟩

theorem findLastPM_eval (c0 c1 c2 c3 c5 c6 c8 c9 : Char) (tail : List Char)
    (h8 : isDigitC c8 = true) (h9 : isDigitC c9 = true)
    (htail : ∀ c ∈ tail, ((c == '+') = false ∧ (c == '-') = false)) :
    findLastPM (c0 :: c1 :: c2 :: c3 :: '-' :: c5 :: c6 :: '-' :: c8 :: c9 :: tail)
      = some 7 := by
  have b8p := digit_ne_char c8 '+' h8 (by left; decide)
  have b8m := digit_ne_char c8 '-' h8 (by left; decide)
  have b9p := digit_ne_char c9 '+' h9 (by left; decide)
  have b9m := digit_ne_char c9 '-' h9 (by left; decide)
  unfold findLastPM
  have hrev : (c0 :: c1 :: c2 :: c3 :: '-' :: c5 :: c6 :: '-' :: c8 :: c9 :: tail).reverse
      = tail.reverse ++ [c9, c8, '-', c6, c5, '-', c3, c2, c1, c0] := by
    simp
  rw [hrev, findIdx_false_append _ _ _
    (fun c hc => by
      have hm := htail c (List.mem_reverse.mp hc)
      simp [hm.1, hm.2])]
  simp only [List.findIdx?_cons, b9p, b9m, b8p, b8m, Bool.or_self, Bool.or_false,
    Bool.false_or, if_false]
  norm_num
  omega

theorem stripZ_fallback (base : List Char)
    (h : (base.getLast? == some 'Z') = false) :
    fromStringFallback (base ++ ['Z']) = fromStringFallback base := by
  unfold fromStringFallback
  rw [List.getLast?_concat, List.dropLast_concat, h]
  norm_num

theorem readFraction7_split (fs : List Char) (v : Int) (n : Nat) :
    ∃ ds, fs = ds ++ (readFraction7 fs v n).2.2 ∧ (∀ c ∈ ds, isDigitC c = true) ∧
      (readFraction7 fs v n).2.1 = n + ds.length := by
  induction fs generalizing v n with
  | nil => exact ⟨[], by simp [readFraction7], by simp, by simp [readFraction7]⟩
  | cons c cs ih =>
    by_cases hc : isDigitC c = true ∧ n < 7
    · obtain ⟨ds, hds1, hds2, hds3⟩ := ih (v * 10 + ((c.toNat : Int) - 48)) (n + 1)
      refine ⟨c :: ds, ?_, ?_, ?_⟩
      · simp only [readFraction7, if_pos hc, List.cons_append]
        exact congrArg (c :: ·) hds1
      · intro x hx
        rcases List.mem_cons.mp hx with rfl | hx2
        · exact hc.1
        · exact hds2 x hx2
      · simp only [readFraction7, if_pos hc, hds3, List.length_cons]
        omega
    · refine ⟨[], ?_, by simp, ?_⟩
      · simp only [readFraction7, if_neg hc, List.nil_append]
      · simp only [readFraction7, if_neg hc, List.length_nil]
        omega

theorem readFraction7_digits_append (ds rest : List Char) (v : Int) (n : Nat)
    (hds : ∀ c ∈ ds, isDigitC c = true)
    (hrest : isDigitC (rest.headD 'T') = false) :
    readFraction7 (ds ++ rest) v n
      = ((readFraction7 ds v n).1, (readFraction7 ds v n).2.1,
          (readFraction7 ds v n).2.2 ++ rest) := by
  induction ds generalizing v n with
  | nil =>
    simp only [List.nil_append, readFraction7]
    cases rest with
    | nil => simp [readFraction7]
    | cons c cs =>
      simp only [List.headD] at hrest
      simp [readFraction7, hrest]
  | cons d ds' ih =>
    have hd : isDigitC d = true := hds d (List.mem_cons_self d ds')
    have hds' : ∀ c ∈ ds', isDigitC c = true :=
      fun c hc => hds c (List.mem_cons_of_mem d hc)
    by_cases hn : n < 7
    · have hcond : isDigitC d = true ∧ n < 7 := ⟨hd, hn⟩
      rw [List.cons_append]
      simp only [readFraction7]
      rw [if_pos hcond, if_pos hcond]
      exact ih _ _ hds'
    · have hcond : ¬(isDigitC d = true ∧ n < 7) := fun hand => hn hand.2
      rw [List.cons_append]
      simp only [readFraction7]
      rw [if_neg hcond, if_neg hcond]
      simp

theorem fallback_date (c0 c1 c2 c3 c5 c6 c8 c9 : Char)
    (h0 : isDigitC c0 = true) (h1 : isDigitC c1 = true) (h2 : isDigitC c2 = true)
    (h3 : isDigitC c3 = true) (h5 : isDigitC c5 = true) (h6 : isDigitC c6 = true)
    (h8 : isDigitC c8 = true) (h9 : isDigitC c9 = true) :
    fromStringFallback [c0, c1, c2, c3, '-', c5, c6, '-', c8, c9]
      = flexFinish (parse4Digits c0 c1 c2 c3) (parse2Digits c5 c6) (parse2Digits c8 c9)
          0 0 0 0 := by
  have hgl : ([c0, c1, c2, c3, '-', c5, c6, '-', c8, c9] : List Char).getLast? = some c9 :=
    rfl
  have hZ9 : (c9 == 'Z') = false := digit_ne_char c9 'Z' h9 (by right; decide)
  have hfl := findLastPM_eval c0 c1 c2 c3 c5 c6 c8 c9 [] h8 h9 (by intro c hc; cases hc)
  have b5 : (c5 == '-') = false := digit_ne_char c5 '-' h5 (by left; decide)
  have b6 : (c6 == '-') = false := digit_ne_char c6 '-' h6 (by left; decide)
  have hne0 : c0 ≠ '-' := by
    have := digit_ne_char c0 '-' h0 (by left; decide)
    exact beq_eq_false_iff_ne.mp this
  have hy : fromCharsInt32 [c0, c1, c2, c3]
      = some (parse4Digits c0 c1 c2 c3, []) := by
    rw [fromCharsInt32_cons_ne _ _ hne0, readIntRun_four c0 c1 c2 c3 [] h0 h1 h2 h3 (by decide)]
  have hmo : readIntRun [c5, c6] = some (parse2Digits c5 c6, []) :=
    readIntRun_two c5 c6 [] h5 h6 (by decide)
  have hda : readIntRun [c8, c9] = some (parse2Digits c8 c9, []) :=
    readIntRun_two c8 c9 [] h8 h9 (by decide)
  unfold fromStringFallback
  rw [hgl]
  simp [hZ9, hfl, hy, hmo, hda, b5, b6, List.findIdx?_cons]

theorem fallback_timepart (c0 c1 c2 c3 c5 c6 c8 c9 : Char) (rest : List Char)
    (h0 : isDigitC c0 = true) (h1 : isDigitC c1 = true) (h2 : isDigitC c2 = true)
    (h3 : isDigitC c3 = true) (h5 : isDigitC c5 = true) (h6 : isDigitC c6 = true)
    (h8 : isDigitC c8 = true) (h9 : isDigitC c9 = true)
    (hnosign : ∀ c ∈ rest, ((c == '+') = false ∧ (c == '-') = false))
    (hZ : (((c0 :: c1 :: c2 :: c3 :: '-' :: c5 :: c6 :: '-' :: c8 :: c9 :: 'T' :: rest
        : List Char).getLast?) == some 'Z') = false) :
    fromStringFallback (c0 :: c1 :: c2 :: c3 :: '-' :: c5 :: c6 :: '-' :: c8 :: c9 :: 'T' :: rest)
      = flexTimePart (parse4Digits c0 c1 c2 c3) (parse2Digits c5 c6) (parse2Digits c8 c9)
          rest := by
  have hfl := findLastPM_eval c0 c1 c2 c3 c5 c6 c8 c9 ('T' :: rest) h8 h9
    (by
      intro c hc
      rcases List.mem_cons.mp hc with rfl | hc2
      · constructor <;> decide
      · exact hnosign c hc2)
  have b5 : (c5 == '-') = false := digit_ne_char c5 '-' h5 (by left; decide)
  have b6 : (c6 == '-') = false := digit_ne_char c6 '-' h6 (by left; decide)
  have hne0 : c0 ≠ '-' := by
    have := digit_ne_char c0 '-' h0 (by left; decide)
    exact beq_eq_false_iff_ne.mp this
  have hy : fromCharsInt32 [c0, c1, c2, c3]
      = some (parse4Digits c0 c1 c2 c3, []) := by
    rw [fromCharsInt32_cons_ne _ _ hne0, readIntRun_four c0 c1 c2 c3 [] h0 h1 h2 h3 (by decide)]
  have hmo : readIntRun [c5, c6] = some (parse2Digits c5 c6, []) :=
    readIntRun_two c5 c6 [] h5 h6 (by decide)
  have hda : readIntRun (c8 :: c9 :: 'T' :: rest)
      = some (parse2Digits c8 c9, 'T' :: rest) :=
    readIntRun_two c8 c9 ('T' :: rest) h8 h9 rfl
  unfold fromStringFallback
  rw [hZ]
  simp [hfl, hy, hmo, hda, b5, b6, List.findIdx?_cons]

theorem flexTimePart_eval_nofrac (y m d : Int) (t1 t2 t3 t4 t5 t6 : Char)
    (g1 : isDigitC t1 = true) (g2 : isDigitC t2 = true) (g3 : isDigitC t3 = true)
    (g4 : isDigitC t4 = true) (g5 : isDigitC t5 = true) (g6 : isDigitC t6 = true) :
    flexTimePart y m d [t1, t2, ':', t3, t4, ':', t5, t6]
      = flexFinish y m d (parse2Digits t1 t2) (parse2Digits t3 t4) (parse2Digits t5 t6)
          0 := by
  have r1 := readIntRun_two t1 t2 (':' :: t3 :: t4 :: ':' :: t5 :: t6 :: []) g1 g2 rfl
  have r2 := readIntRun_two t3 t4 (':' :: t5 :: t6 :: []) g3 g4 rfl
  have r3 := readIntRun_two t5 t6 [] g5 g6 rfl
  unfold flexTimePart
  rw [r1]
  simp only [r2, r3]

theorem flexTimePart_eval_frac (y m d : Int) (t1 t2 t3 t4 t5 t6 : Char) (fr : List Char)
    (g1 : isDigitC t1 = true) (g2 : isDigitC t2 = true) (g3 : isDigitC t3 = true)
    (g4 : isDigitC t4 = true) (g5 : isDigitC t5 = true) (g6 : isDigitC t6 = true) :
    flexTimePart y m d (t1 :: t2 :: ':' :: t3 :: t4 :: ':' :: t5 :: t6 :: '.' :: fr)
      = flexFinish y m d (parse2Digits t1 t2) (parse2Digits t3 t4) (parse2Digits t5 t6)
          (if (readFraction7 fr 0 0).2.1 = 0 then 0
           else padFractionTo7 (readFraction7 fr 0 0).2.1 (readFraction7 fr 0 0).1) := by
  have r1 := readIntRun_two t1 t2 (':' :: t3 :: t4 :: ':' :: t5 :: t6 :: '.' :: fr) g1 g2 rfl
  have r2 := readIntRun_two t3 t4 (':' :: t5 :: t6 :: '.' :: fr) g3 g4 rfl
  have r3 := readIntRun_two t5 t6 ('.' :: fr) g5 g6 rfl
  unfold flexTimePart
  rw [r1]
  simp only [r2, r3]

theorem digit_nosign (x : Char) (hx : isDigitC x = true) :
    ((x == '+') = false ∧ (x == '-') = false) :=
  ⟨digit_ne_char x '+' hx (by left; decide), digit_ne_char x '-' hx (by left; decide)⟩

theorem chain_getLast_nofrac (c0 c1 c2 c3 c5 c6 c8 c9 t1 t2 t3 t4 t5 t6 : Char)
    (g6 : isDigitC t6 = true) :
    (((c0 :: c1 :: c2 :: c3 :: '-' :: c5 :: c6 :: '-' :: c8 :: c9 :: 'T' ::
        t1 :: t2 :: ':' :: t3 :: t4 :: ':' :: t5 :: t6 :: [] : List Char).getLast?)
      == some 'Z') = false := by
  have hgl : ((c0 :: c1 :: c2 :: c3 :: '-' :: c5 :: c6 :: '-' :: c8 :: c9 :: 'T' ::
      t1 :: t2 :: ':' :: t3 :: t4 :: ':' :: t5 :: t6 :: [] : List Char).getLast?)
      = some t6 := rfl
  rw [hgl]
  exact digit_ne_char t6 'Z' g6 (by right; decide)

theorem chain_getLast_frac (c0 c1 c2 c3 c5 c6 c8 c9 t1 t2 t3 t4 t5 t6 : Char)
    (ds : List Char) (hds : ∀ c ∈ ds, isDigitC c = true) (hne : ds ≠ []) :
    (((c0 :: c1 :: c2 :: c3 :: '-' :: c5 :: c6 :: '-' :: c8 :: c9 :: 'T' ::
        t1 :: t2 :: ':' :: t3 :: t4 :: ':' :: t5 :: t6 :: '.' :: ds : List Char).getLast?)
      == some 'Z') = false := by
  rcases List.eq_nil_or_concat ds with rfl | ⟨init, dl, hconc⟩
  · exact absurd rfl hne
  · rw [List.concat_eq_append] at hconc
    subst hconc
    have hsp : (c0 :: c1 :: c2 :: c3 :: '-' :: c5 :: c6 :: '-' :: c8 :: c9 :: 'T' ::
        t1 :: t2 :: ':' :: t3 :: t4 :: ':' :: t5 :: t6 :: '.' :: (init ++ [dl]) : List Char)
        = (c0 :: c1 :: c2 :: c3 :: '-' :: c5 :: c6 :: '-' :: c8 :: c9 :: 'T' ::
            t1 :: t2 :: ':' :: t3 :: t4 :: ':' :: t5 :: t6 :: '.' :: init) ++ [dl] := by
      simp
    rw [hsp, List.getLast?_concat]
    have hdl : isDigitC dl = true := hds dl (by simp)
    exact digit_ne_char dl 'Z' hdl (by right; decide)

theorem fallback_full_nofrac (c0 c1 c2 c3 c5 c6 c8 c9 t1 t2 t3 t4 t5 t6 : Char)
    (h0 : isDigitC c0 = true) (h1 : isDigitC c1 = true) (h2 : isDigitC c2 = true)
    (h3 : isDigitC c3 = true) (h5 : isDigitC c5 = true) (h6 : isDigitC c6 = true)
    (h8 : isDigitC c8 = true) (h9 : isDigitC c9 = true)
    (g1 : isDigitC t1 = true) (g2 : isDigitC t2 = true) (g3 : isDigitC t3 = true)
    (g4 : isDigitC t4 = true) (g5 : isDigitC t5 = true) (g6 : isDigitC t6 = true)
    (hvd : isValidDate (parse4Digits c0 c1 c2 c3) (parse2Digits c5 c6)
      (parse2Digits c8 c9) = true)
    (hvt : isValidTime (parse2Digits t1 t2) (parse2Digits t3 t4)
      (parse2Digits t5 t6) 0 = true) :
    fromStringFallback (c0 :: c1 :: c2 :: c3 :: '-' :: c5 :: c6 :: '-' :: c8 :: c9 :: 'T' ::
        t1 :: t2 :: ':' :: t3 :: t4 :: ':' :: t5 :: t6 :: [])
      = some (dateToTicks (parse4Digits c0 c1 c2 c3) (parse2Digits c5 c6) (parse2Digits c8 c9)
          + timeToTicks (parse2Digits t1 t2) (parse2Digits t3 t4) (parse2Digits t5 t6) 0) := by
  rw [fallback_timepart c0 c1 c2 c3 c5 c6 c8 c9 _ h0 h1 h2 h3 h5 h6 h8 h9
    (by
      intro c hc
      simp only [List.mem_cons, List.not_mem_nil, or_false] at hc
      rcases hc with rfl | rfl | rfl | rfl | rfl | rfl | rfl | rfl
      · exact digit_nosign c g1
      · exact digit_nosign c g2
      · exact ⟨by decide, by decide⟩
      · exact digit_nosign c g3
      · exact digit_nosign c g4
      · exact ⟨by decide, by decide⟩
      · exact digit_nosign c g5
      · exact digit_nosign c g6)
    (chain_getLast_nofrac c0 c1 c2 c3 c5 c6 c8 c9 t1 t2 t3 t4 t5 t6 g6)]
  rw [flexTimePart_eval_nofrac _ _ _ t1 t2 t3 t4 t5 t6 g1 g2 g3 g4 g5 g6]
  unfold flexFinish
  rw [if_pos ⟨hvd, hvt⟩]
  norm_num

theorem fallback_full_frac (c0 c1 c2 c3 c5 c6 c8 c9 t1 t2 t3 t4 t5 t6 : Char)
    (ds : List Char)
    (h0 : isDigitC c0 = true) (h1 : isDigitC c1 = true) (h2 : isDigitC c2 = true)
    (h3 : isDigitC c3 = true) (h5 : isDigitC c5 = true) (h6 : isDigitC c6 = true)
    (h8 : isDigitC c8 = true) (h9 : isDigitC c9 = true)
    (g1 : isDigitC t1 = true) (g2 : isDigitC t2 = true) (g3 : isDigitC t3 = true)
    (g4 : isDigitC t4 = true) (g5 : isDigitC t5 = true) (g6 : isDigitC t6 = true)
    (hds : ∀ c ∈ ds, isDigitC c = true) (hne : ds ≠ [])
    (hvd : isValidDate (parse4Digits c0 c1 c2 c3) (parse2Digits c5 c6)
      (parse2Digits c8 c9) = true)
    (hvt : isValidTime (parse2Digits t1 t2) (parse2Digits t3 t4)
      (parse2Digits t5 t6) 0 = true) :
    fromStringFallback (c0 :: c1 :: c2 :: c3 :: '-' :: c5 :: c6 :: '-' :: c8 :: c9 :: 'T' ::
        t1 :: t2 :: ':' :: t3 :: t4 :: ':' :: t5 :: t6 :: '.' :: ds)
      = some (dateToTicks (parse4Digits c0 c1 c2 c3) (parse2Digits c5 c6) (parse2Digits c8 c9)
          + timeToTicks (parse2Digits t1 t2) (parse2Digits t3 t4) (parse2Digits t5 t6) 0
          + (if (readFraction7 ds 0 0).2.1 = 0 then 0
             else padFractionTo7 (readFraction7 ds 0 0).2.1 (readFraction7 ds 0 0).1)) := by
  rw [fallback_timepart c0 c1 c2 c3 c5 c6 c8 c9 _ h0 h1 h2 h3 h5 h6 h8 h9
    (by
      intro c hc
      simp only [List.mem_cons] at hc
      rcases hc with rfl | rfl | rfl | rfl | rfl | rfl | rfl | rfl | rfl | hmem
      · exact digit_nosign c g1
      · exact digit_nosign c g2
      · exact ⟨by decide, by decide⟩
      · exact digit_nosign c g3
      · exact digit_nosign c g4
      · exact ⟨by decide, by decide⟩
      · exact digit_nosign c g5
      · exact digit_nosign c g6
      · exact ⟨by decide, by decide⟩
      · exact digit_nosign c (hds c hmem))
    (chain_getLast_frac c0 c1 c2 c3 c5 c6 c8 c9 t1 t2 t3 t4 t5 t6 ds hds hne)]
  rw [flexTimePart_eval_frac _ _ _ t1 t2 t3 t4 t5 t6 ds g1 g2 g3 g4 g5 g6]
  unfold flexFinish
  rw [if_pos ⟨hvd, hvt⟩]

/-- Refinement: every string accepted by the fast path is also accepted by
the flexible fallback parser, with the same tick value. -/
theorem fast_imp_fallback (s : List Char) (t : Int)
    (hf : tryParseFastPath s = some t) : fromStringFallback s = some t := by
  unfold tryParseFastPath at hf
  split at hf
  · next c0 c1 c2 c3 c4 c5 c6 c7 c8 c9 rest =>
    split at hf
    · next hcond =>
      obtain ⟨hc4, hc7, h0, h1, h2, h3, h5, h6, h8, h9⟩ := hcond
      subst hc4
      subst hc7
      dsimp only at hf
      by_cases hvd : isValidDate (parse4Digits c0 c1 c2 c3) (parse2Digits c5 c6)
          (parse2Digits c8 c9) = true
      · rw [if_pos hvd] at hf
        cases rest with
        | nil =>
          rw [fallback_date c0 c1 c2 c3 c5 c6 c8 c9 h0 h1 h2 h3 h5 h6 h8 h9]
          unfold flexFinish
          rw [if_pos ⟨hvd, by decide⟩]
          have hz : timeToTicks 0 0 0 0 = 0 := by norm_num [timeToTicks]
          rw [hz, ← Option.some.inj hf]
          norm_num
        | cons c10 rest2 =>
          dsimp only at hf
          by_cases hc10 : c10 = 'T'
          · subst hc10
            rw [if_pos rfl] at hf
            rcases rest2 with _ | ⟨t1, _ | ⟨t2, _ | ⟨cc1, _ | ⟨t3, _ | ⟨t4, _ | ⟨cc2,
              _ | ⟨t5, _ | ⟨t6, rest3⟩⟩⟩⟩⟩⟩⟩⟩ <;> dsimp only at hf <;>
              try exact Option.noConfusion hf
            by_cases hcond2 : cc1 = ':' ∧ cc2 = ':' ∧ isDigitC t1 = true ∧
                isDigitC t2 = true ∧ isDigitC t3 = true ∧ isDigitC t4 = true ∧
                isDigitC t5 = true ∧ isDigitC t6 = true
            · rw [if_pos hcond2] at hf
              obtain ⟨hcc1, hcc2, g1, g2, g3, g4, g5, g6⟩ := hcond2
              subst hcc1
              subst hcc2
              by_cases hvt : isValidTime (parse2Digits t1 t2) (parse2Digits t3 t4)
                  (parse2Digits t5 t6) 0 = true
              · rw [if_pos hvt] at hf
                unfold fastAfterSeconds at hf
                split at hf
                · -- rest3 = []
                  rw [fallback_full_nofrac c0 c1 c2 c3 c5 c6 c8 c9 t1 t2 t3 t4 t5 t6
                    h0 h1 h2 h3 h5 h6 h8 h9 g1 g2 g3 g4 g5 g6 hvd hvt]
                  exact hf
                · -- rest3 = ['Z']
                  rw [show (c0 :: c1 :: c2 :: c3 :: '-' :: c5 :: c6 :: '-' :: c8 :: c9 ::
                      'T' :: t1 :: t2 :: ':' :: t3 :: t4 :: ':' :: t5 :: t6 :: 'Z' :: []
                      : List Char)
                    = (c0 :: c1 :: c2 :: c3 :: '-' :: c5 :: c6 :: '-' :: c8 :: c9 ::
                        'T' :: t1 :: t2 :: ':' :: t3 :: t4 :: ':' :: t5 :: t6 :: [])
                      ++ ['Z'] from rfl]
                  rw [stripZ_fallback _
                    (chain_getLast_nofrac c0 c1 c2 c3 c5 c6 c8 c9 t1 t2 t3 t4 t5 t6 g6)]
                  rw [fallback_full_nofrac c0 c1 c2 c3 c5 c6 c8 c9 t1 t2 t3 t4 t5 t6
                    h0 h1 h2 h3 h5 h6 h8 h9 g1 g2 g3 g4 g5 g6 hvd hvt]
                  exact hf
                · next fs =>
                  -- rest3 = '.' :: fs
                  by_cases hn0 : (readFraction7 fs 0 0).2.1 = 0
                  · rw [if_pos hn0] at hf
                    simp at hf
                  · rw [if_neg hn0] at hf
                    obtain ⟨ds, hds1, hds2, hds3⟩ := readFraction7_split fs 0 0
                    have htw : ∀ c ∈ ((readFraction7 fs 0 0).2.2.takeWhile isDigitC),
                        isDigitC c = true := fun c hc => List.mem_takeWhile_imp hc
                    have hdsall : ∀ c ∈ ds ++ (readFraction7 fs 0 0).2.2.takeWhile isDigitC,
                        isDigitC c = true := by
                      intro c hc
                      rcases List.mem_append.mp hc with hc1 | hc2
                      · exact hds2 c hc1
                      · exact htw c hc2
                    have hdsne : ds ++ (readFraction7 fs 0 0).2.2.takeWhile isDigitC ≠ [] := by
                      intro hnil
                      rcases List.append_eq_nil.mp hnil with ⟨hd1, _⟩
                      rw [hd1] at hds3
                      simp at hds3
                      exact hn0 hds3
                    have hfs2 : fs = (ds ++ (readFraction7 fs 0 0).2.2.takeWhile isDigitC)
                        ++ (readFraction7 fs 0 0).2.2.dropWhile isDigitC := by
                      rw [List.append_assoc,
                        List.takeWhile_append_dropWhile isDigitC (readFraction7 fs 0 0).2.2]
                      exact hds1
                    split at hf
                    · next heqd =>
                      -- dropWhile = []
                      have hstop2 : isDigitC (((readFraction7 fs 0 0).2.2.dropWhile
                          isDigitC).headD 'T') = false := by
                        rw [heqd]
                        decide
                      have hkey := readFraction7_digits_append
                        (ds ++ (readFraction7 fs 0 0).2.2.takeWhile isDigitC)
                        ((readFraction7 fs 0 0).2.2.dropWhile isDigitC) 0 0 hdsall hstop2
                      rw [← hfs2] at hkey
                      have hfseq : fs = ds ++ (readFraction7 fs 0 0).2.2.takeWhile isDigitC := by
                        conv_lhs => rw [hfs2]
                        rw [heqd, List.append_nil]
                      have hn : (readFraction7 fs 0 0).2.1
                          = (readFraction7 (ds ++ (readFraction7 fs 0 0).2.2.takeWhile
                              isDigitC) 0 0).2.1 := congrArg (fun p => p.2.1) hkey
                      have hv : (readFraction7 fs 0 0).1
                          = (readFraction7 (ds ++ (readFraction7 fs 0 0).2.2.takeWhile
                              isDigitC) 0 0).1 := congrArg (fun p => p.1) hkey
                      rw [hn] at hn0
                      rw [hn, hv] at hf
                      rw [hfseq]
                      rw [fallback_full_frac c0 c1 c2 c3 c5 c6 c8 c9 t1 t2 t3 t4 t5 t6 _
                        h0 h1 h2 h3 h5 h6 h8 h9 g1 g2 g3 g4 g5 g6 hdsall hdsne hvd hvt]
                      rw [if_neg hn0]
                      exact hf
                    · next heqd =>
                      -- dropWhile = ['Z']
                      have hstop2 : isDigitC (((readFraction7 fs 0 0).2.2.dropWhile
                          isDigitC).headD 'T') = false := by
                        rw [heqd]
                        decide
                      have hkey := readFraction7_digits_append
                        (ds ++ (readFraction7 fs 0 0).2.2.takeWhile isDigitC)
                        ((readFraction7 fs 0 0).2.2.dropWhile isDigitC) 0 0 hdsall hstop2
                      rw [← hfs2] at hkey
                      have hfseq : fs = (ds ++ (readFraction7 fs 0 0).2.2.takeWhile isDigitC)
                          ++ ['Z'] := by
                        conv_lhs => rw [hfs2]
                        rw [heqd]
                      have hn : (readFraction7 fs 0 0).2.1
                          = (readFraction7 (ds ++ (readFraction7 fs 0 0).2.2.takeWhile
                              isDigitC) 0 0).2.1 := congrArg (fun p => p.2.1) hkey
                      have hv : (readFraction7 fs 0 0).1
                          = (readFraction7 (ds ++ (readFraction7 fs 0 0).2.2.takeWhile
                              isDigitC) 0 0).1 := congrArg (fun p => p.1) hkey
                      rw [hn] at hn0
                      rw [hn, hv] at hf
                      rw [hfseq]
                      rw [show (c0 :: c1 :: c2 :: c3 :: '-' :: c5 :: c6 :: '-' :: c8 :: c9 ::
                          'T' :: t1 :: t2 :: ':' :: t3 :: t4 :: ':' :: t5 :: t6 :: '.' ::
                          ((ds ++ (readFraction7 fs 0 0).2.2.takeWhile isDigitC) ++ ['Z'])
                          : List Char)
                        = (c0 :: c1 :: c2 :: c3 :: '-' :: c5 :: c6 :: '-' :: c8 :: c9 ::
                            'T' :: t1 :: t2 :: ':' :: t3 :: t4 :: ':' :: t5 :: t6 :: '.' ::
                            (ds ++ (readFraction7 fs 0 0).2.2.takeWhile isDigitC))
                          ++ ['Z'] from by simp]
                      rw [stripZ_fallback _
                        (chain_getLast_frac c0 c1 c2 c3 c5 c6 c8 c9 t1 t2 t3 t4 t5 t6 _
                          hdsall hdsne)]
                      rw [fallback_full_frac c0 c1 c2 c3 c5 c6 c8 c9 t1 t2 t3 t4 t5 t6 _
                        h0 h1 h2 h3 h5 h6 h8 h9 g1 g2 g3 g4 g5 g6 hdsall hdsne hvd hvt]
                      rw [if_neg hn0]
                      exact hf
                    · next heqd => simp at hf
                · simp at hf
              · rw [if_neg hvt] at hf
                simp at hf
            · rw [if_neg hcond2] at hf
              simp at hf
          · rw [if_neg hc10] at hf
            simp at hf
      · rw [if_neg hvd] at hf
        simp at hf
    · simp at hf
  · simp at hf

/-- Claim C3: every input string that both the fast-path parser and the
flexible fallback parser accept yields bit-identical results, the same tick
value; proved via the stronger refinement fast_imp_fallback. -/
theorem c3_fast_flex_agree (s : List Char) (t1 t2 : Int)
    (hfast : tryParseFastPath s = some t1)
    (hflex : fromStringFallback s = some t2) : t1 = t2 := by
  rw [fast_imp_fallback s t1 hfast] at hflex
  exact Option.some.inj hflex

/-- Witness for C3 at the concrete string 2024-01-15T10:30:00. -/
theorem c3_fast_flex_agree_witness :
    tryParseFastPath exNoZone = some 638409114000000000 ∧
    fromStringFallback exNoZone = some 638409114000000000 ∧
    (638409114000000000 : Int) = 638409114000000000 :=
  ⟨by decide, by decide,
    c3_fast_flex_agree exNoZone 638409114000000000 638409114000000000
      (by decide) (by decide)⟩


/-! ### Claim C6 amended: universal excess-digit tolerance -/

/-- readFraction7 consumes nothing once 7 digits have been read. -/
theorem readFraction7_cap (l : List Char) (v : Int) : readFraction7 l v 7 = (v, 7, l) := by
  cases l with
  | nil => rfl
  | cons c cs => simp [readFraction7]

theorem readFraction7_seven (d1 d2 d3 d4 d5 d6 d7 : Char) (rest : List Char)
    (k1 : isDigitC d1 = true) (k2 : isDigitC d2 = true) (k3 : isDigitC d3 = true)
    (k4 : isDigitC d4 = true) (k5 : isDigitC d5 = true) (k6 : isDigitC d6 = true)
    (k7 : isDigitC d7 = true) :
    readFraction7 (d1 :: d2 :: d3 :: d4 :: d5 :: d6 :: d7 :: rest) 0 0
      = ((readFraction7 [d1, d2, d3, d4, d5, d6, d7] 0 0).1, 7, rest) := by
  simp [readFraction7, k1, k2, k3, k4, k5, k6, k7, readFraction7_cap]

theorem dropWhile_digits_nil (l : List Char) (h : ∀ c ∈ l, isDigitC c = true) :
    l.dropWhile isDigitC = [] := by
  induction l with
  | nil => rfl
  | cons c cs ih =>
    simp [List.dropWhile, h c (List.mem_cons_self c cs),
      ih (fun x hx => h x (List.mem_cons_of_mem c hx))]

set_option maxHeartbeats 1600000 in
/-- Claim C6 as amended: for every datetime string whose fractional-second
field consists of more than 7 digit characters (seven digits followed by at
least one further digit, and possibly more), the flexible fallback parser
succeeds: it reads the first 7 digits and silently ignores the excess, and
the fast-path parser accepts the very same string with the identical tick
value. -/
theorem c6_amended_flexible_accepts_excess_digits (c0 c1 c2 c3 c5 c6 c8 c9 t1 t2 t3 t4 t5 t6
      d1 d2 d3 d4 d5 d6 d7 ex : Char) (tail : List Char)
    (h0 : isDigitC c0 = true) (h1 : isDigitC c1 = true) (h2 : isDigitC c2 = true)
    (h3 : isDigitC c3 = true) (h5 : isDigitC c5 = true) (h6 : isDigitC c6 = true)
    (h8 : isDigitC c8 = true) (h9 : isDigitC c9 = true)
    (g1 : isDigitC t1 = true) (g2 : isDigitC t2 = true) (g3 : isDigitC t3 = true)
    (g4 : isDigitC t4 = true) (g5 : isDigitC t5 = true) (g6 : isDigitC t6 = true)
    (k1 : isDigitC d1 = true) (k2 : isDigitC d2 = true) (k3 : isDigitC d3 = true)
    (k4 : isDigitC d4 = true) (k5 : isDigitC d5 = true) (k6 : isDigitC d6 = true)
    (k7 : isDigitC d7 = true) (kex : isDigitC ex = true)
    (htail : ∀ c ∈ tail, isDigitC c = true)
    (hvd : isValidDate (parse4Digits c0 c1 c2 c3) (parse2Digits c5 c6)
      (parse2Digits c8 c9) = true)
    (hvt : isValidTime (parse2Digits t1 t2) (parse2Digits t3 t4)
      (parse2Digits t5 t6) 0 = true) :
    fromStringFallback (c0 :: c1 :: c2 :: c3 :: '-' :: c5 :: c6 :: '-' :: c8 :: c9 :: 'T' ::
        t1 :: t2 :: ':' :: t3 :: t4 :: ':' :: t5 :: t6 :: '.' ::
        d1 :: d2 :: d3 :: d4 :: d5 :: d6 :: d7 :: ex :: tail)
      = some (dateToTicks (parse4Digits c0 c1 c2 c3) (parse2Digits c5 c6) (parse2Digits c8 c9)
          + timeToTicks (parse2Digits t1 t2) (parse2Digits t3 t4) (parse2Digits t5 t6) 0
          + padFractionTo7 7 (readFraction7 [d1, d2, d3, d4, d5, d6, d7] 0 0).1)
    ∧ tryParseFastPath (c0 :: c1 :: c2 :: c3 :: '-' :: c5 :: c6 :: '-' :: c8 :: c9 :: 'T' ::
        t1 :: t2 :: ':' :: t3 :: t4 :: ':' :: t5 :: t6 :: '.' ::
        d1 :: d2 :: d3 :: d4 :: d5 :: d6 :: d7 :: ex :: tail)
      = fromStringFallback (c0 :: c1 :: c2 :: c3 :: '-' :: c5 :: c6 :: '-' :: c8 :: c9 :: 'T' ::
          t1 :: t2 :: ':' :: t3 :: t4 :: ':' :: t5 :: t6 :: '.' ::
          d1 :: d2 :: d3 :: d4 :: d5 :: d6 :: d7 :: ex :: tail) := by
  have hds : ∀ c ∈ (d1 :: d2 :: d3 :: d4 :: d5 :: d6 :: d7 :: ex :: tail),
      isDigitC c = true := by
    intro c hc
    simp only [List.mem_cons] at hc
    rcases hc with rfl | rfl | rfl | rfl | rfl | rfl | rfl | rfl | hmem
    · exact k1
    · exact k2
    · exact k3
    · exact k4
    · exact k5
    · exact k6
    · exact k7
    · exact kex
    · exact htail c hmem
  have hseven := readFraction7_seven d1 d2 d3 d4 d5 d6 d7 (ex :: tail)
    k1 k2 k3 k4 k5 k6 k7
  have hflex : fromStringFallback (c0 :: c1 :: c2 :: c3 :: '-' :: c5 :: c6 :: '-' :: c8 ::
      c9 :: 'T' :: t1 :: t2 :: ':' :: t3 :: t4 :: ':' :: t5 :: t6 :: '.' ::
      d1 :: d2 :: d3 :: d4 :: d5 :: d6 :: d7 :: ex :: tail)
      = some (dateToTicks (parse4Digits c0 c1 c2 c3) (parse2Digits c5 c6) (parse2Digits c8 c9)
          + timeToTicks (parse2Digits t1 t2) (parse2Digits t3 t4) (parse2Digits t5 t6) 0
          + padFractionTo7 7 (readFraction7 [d1, d2, d3, d4, d5, d6, d7] 0 0).1) := by
    rw [fallback_full_frac c0 c1 c2 c3 c5 c6 c8 c9 t1 t2 t3 t4 t5 t6 _
      h0 h1 h2 h3 h5 h6 h8 h9 g1 g2 g3 g4 g5 g6 hds (by simp) hvd hvt]
    rw [hseven]
    norm_num
  refine ⟨hflex, ?_⟩
  rw [hflex]
  have htail2 : ∀ c ∈ (ex :: tail), isDigitC c = true := by
    intro c hc
    rcases List.mem_cons.mp hc with rfl | hmem
    · exact kex
    · exact htail c hmem
  have hdw : (ex :: tail).dropWhile isDigitC = [] := dropWhile_digits_nil _ htail2
  simp only [tryParseFastPath, h0, h1, h2, h3, h5, h6, h8, h9, g1, g2, g3, g4, g5, g6,
    hvd, hvt, if_true, and_true, true_and, and_self, ite_true]
  simp only [fastAfterSeconds]
  rw [hseven]
  norm_num [hdw]

/-- Witness for the amended C6 at the concrete 8-fraction-digit string. -/
theorem c6_amended_flexible_accepts_excess_digits_witness :
    fromStringFallback exFrac8
        = some (dateToTicks (parse4Digits '2' '0' '2' '4') (parse2Digits '0' '1')
              (parse2Digits '1' '5')
            + timeToTicks (parse2Digits '1' '0') (parse2Digits '3' '0')
                (parse2Digits '0' '0') 0
            + padFractionTo7 7 (readFraction7 ['1', '2', '3', '4', '5', '6', '7'] 0 0).1)
      ∧ tryParseFastPath exFrac8 = fromStringFallback exFrac8 :=
  c6_amended_flexible_accepts_excess_digits '2' '0' '2' '4' '0' '1' '1' '5'
    '1' '0' '3' '0' '0' '0' '1' '2' '3' '4' '5' '6' '7' '8' []
    (by decide) (by decide) (by decide) (by decide) (by decide) (by decide)
    (by decide) (by decide) (by decide) (by decide) (by decide) (by decide)
    (by decide) (by decide) (by decide) (by decide) (by decide) (by decide)
    (by decide) (by decide) (by decide) (by decide)
    (fun c hc => absurd hc (List.not_mem_nil c)) (by decide) (by decide)


end NfxDateTime
